import Mathlib

set_option autoImplicit false

namespace LacertaDB

/-!
Shallow embedding of the LacertaDB core (src/index.js): the byte-level codec
pipeline (`BrowserEncryptionUtility`, `Document.pack` / `Document.unpack`), the
metadata store (`CollectionMetadata`, `DatabaseMetadata`), the collection engine
(`Collection.addDocument` / `getDocument` / `deleteDocument` / `freeSpace`) and
`Database.deleteDatabase`.  Byte buffers are `List Nat`, JS objects used as
string-keyed maps are association lists, KB sizes are rationals, and the
WebCrypto / compression / JOYSON collaborators enter as pure-function
parameters, as fixed by the external-interface contract of the spec.
-/

/-- Model of `TypedArray.prototype.set`: write `src` into `dest` starting at
`offset`.  Only the within-bounds case occurs in the source (buffers are
allocated with the exact total length before being filled). -/
def uset (dest : List Nat) (offset : Nat) (src : List Nat) : List Nat :=
  dest.take offset ++ src ++ dest.drop (offset + src.length)

/-- Model of `BrowserEncryptionUtility._wrapIntoUint8Array`: allocate a zeroed
buffer of the combined length, then write salt at offset 0, iv after the salt
and the encrypted data after the iv. -/
def wrapIntoUint8Array (salt iv encryptedData : List Nat) : List Nat :=
  let result := List.replicate (salt.length + iv.length + encryptedData.length) 0
  uset (uset (uset result 0 salt) salt.length iv) (salt.length + iv.length) encryptedData

/-- Model of `BrowserEncryptionUtility._combineDataAndChecksum`: allocate a
zeroed buffer, write the data first and append the checksum after it. -/
def combineDataAndChecksum (data checksum : List Nat) : List Nat :=
  let combined := List.replicate (data.length + checksum.length) 0
  uset (uset combined 0 data) data.length checksum

/-- Result of `BrowserEncryptionUtility._unwrapUint8Array`. -/
structure Unwrapped where
  salt : List Nat
  iv : List Nat
  encryptedData : List Nat
deriving Repr, DecidableEq

/-- Model of `_unwrapUint8Array`: first 16 bytes are the salt, the next 12 the
iv (`slice(16, 28)`), the rest the encrypted data. -/
def unwrapUint8Array (wrappedData : List Nat) : Unwrapped :=
  { salt := wrappedData.take 16
    iv := (wrappedData.drop 16).take 12
    encryptedData := wrappedData.drop 28 }

/-- Model of `_separateDataAndChecksum`: the last 32 bytes are the carried
checksum, the rest the payload (`slice(0, length - 32)` / `slice(length - 32)`;
truncated subtraction agrees with the clamping of JS `slice`). -/
def separateDataAndChecksum (combinedData : List Nat) : List Nat × List Nat :=
  let dataLength := combinedData.length - 32
  (combinedData.take dataLength, combinedData.drop dataLength)

/-- Model of `_verifyChecksum`: reject on a length mismatch, then compare the
two buffers element by element. -/
def verifyChecksum (generatedChecksum originalChecksum : List Nat) : Bool :=
  if generatedChecksum.length ≠ originalChecksum.length then false
  else (List.zip generatedChecksum originalChecksum).all fun p => p.1 == p.2

/-- Pure-function collaborators consumed by `BrowserEncryptionUtility` via
WebCrypto: the AEAD cipher (AES-256-GCM, keyed by derived key and iv, with
`cipherDecrypt` returning `none` when the authentication tag is rejected), the
PBKDF2 key derivation and SHA-256.  Per the external-interface contract these
are opaque pure functions; the logic of the core itself is modelled below. -/
structure CryptoPrims where
  cipherEncrypt : List Nat → List Nat → List Nat → List Nat
  cipherDecrypt : List Nat → List Nat → List Nat → Option (List Nat)
  deriveKey : String → List Nat → List Nat
  sha256 : List Nat → List Nat

/-- Model of `BrowserEncryptionUtility.encrypt`.  The arguments `salt` and `iv`
stand for the buffers drawn from `crypto.getRandomValues` (16 and 12 bytes in
the source). -/
def encryptBytes (P : CryptoPrims) (salt iv : List Nat) (data : List Nat)
    (password : String) : List Nat :=
  let key := P.deriveKey password salt
  let checksum := P.sha256 data
  let combinedData := combineDataAndChecksum data checksum
  let encryptedData := P.cipherEncrypt key iv combinedData
  wrapIntoUint8Array salt iv encryptedData

/-- Failure modes of decryption: the cipher rejecting its tag (the spec calls
this CryptoError) and the digest mismatch thrown by the source as
`Data integrity check failed` (the spec calls this IntegrityError). -/
inductive CodecError where
  | cryptoError
  | integrityError
deriving DecidableEq, Repr

/-- Model of `BrowserEncryptionUtility.decrypt`: unwrap salt, iv and encrypted
data, re-derive the key, decrypt, split off the trailing 32-byte checksum,
recompute SHA-256 over the remaining bytes and fail when the digests differ. -/
def decryptBytes (P : CryptoPrims) (wrappedData : List Nat) (password : String) :
    Except CodecError (List Nat) :=
  let u := unwrapUint8Array wrappedData
  let key := P.deriveKey password u.salt
  match P.cipherDecrypt key u.iv u.encryptedData with
  | none => .error .cryptoError
  | some decryptedData =>
    let s := separateDataAndChecksum decryptedData
    let validChecksum := P.sha256 s.1
    if verifyChecksum validChecksum s.2 then .ok s.1
    else .error .integrityError

/-- Collaborators for the full codec pipeline of `Document.pack` / `unpack`:
the crypto primitives plus the JOYSON serializer and the deflate compressor,
all pure functions per the external-interface contract. -/
structure CodecPrims (α : Type) extends CryptoPrims where
  jpack : α → List Nat
  junpack : List Nat → α
  compress : List Nat → List Nat
  decompress : List Nat → List Nat

/-- Model of the byte pipeline of `Document.pack`: serialize with JOYSON, then
compress if the `_compressed` flag is set, then encrypt if the `_encrypted`
flag is set (with the stored encryption key, `""` when none was supplied). -/
def packBytes {α : Type} (C : CodecPrims α) (salt iv : List Nat)
    (compressed encrypted : Bool) (encryptionKey : String) (data : α) : List Nat :=
  let packedData := C.jpack data
  let packedData := if compressed then C.compress packedData else packedData
  if encrypted then encryptBytes C.toCryptoPrims salt iv packedData encryptionKey
  else packedData

/-- Model of the byte pipeline of `Document.unpack`: decrypt if the
`_encrypted` flag is set, then decompress if `_compressed`, then deserialize
with JOYSON. -/
def unpackBytes {α : Type} (C : CodecPrims α) (compressed encrypted : Bool)
    (encryptionKey : String) (packedData : List Nat) : Except CodecError α :=
  let step : Except CodecError (List Nat) :=
    if encrypted then decryptBytes C.toCryptoPrims packedData encryptionKey
    else .ok packedData
  match step with
  | .error e => .error e
  | .ok bytes =>
    let bytes := if compressed then C.decompress bytes else bytes
    .ok (C.junpack bytes)

/-! Association-list model of JS plain objects used as string-keyed maps.
`amSet` mirrors property assignment (update in place if the key exists, append
otherwise), `amErase` mirrors the `delete` operator, `amLookup` mirrors
property read. -/

/-- Read a property from a string-keyed JS object. -/
def amLookup {β : Type} : List (String × β) → String → Option β
  | [], _ => none
  | (k, v) :: rest, key => if k = key then some v else amLookup rest key

/-- Assign a property on a string-keyed JS object. -/
def amSet {β : Type} : List (String × β) → String → β → List (String × β)
  | [], key, val => [(key, val)]
  | (k, v) :: rest, key, val =>
    if k = key then (key, val) :: rest else (k, v) :: amSet rest key val

/-- Delete a property from a string-keyed JS object. -/
def amErase {β : Type} : List (String × β) → String → List (String × β)
  | [], _ => []
  | (k, v) :: rest, key => if k = key then rest else (k, v) :: amErase rest key

/-- Sum of the values of a KB-size map (the quantity the spec compares
`sizeKB` against). -/
def sumValues (m : List (String × ℚ)) : ℚ :=
  (m.map Prod.snd).sum

/-- Own property names of `Object.prototype`.  A plain object literal inherits
all of them: the `in` operator reports them present on every such object, and
reading one of them on an object without an own property of that name yields
the inherited member — a method, or the prototype object itself for
`__proto__` — which is truthy as an object and converts to NaN as a number. -/
def objectProtoKeys : List String :=
  ["constructor", "hasOwnProperty", "isPrototypeOf", "propertyIsEnumerable",
   "toLocaleString", "toString", "valueOf", "__proto__",
   "__defineGetter__", "__defineSetter__", "__lookupGetter__", "__lookupSetter__"]

/-- The JS `in` operator on a plain object: true for an own property and for
every name inherited from `Object.prototype`. -/
def jsIn {β : Type} (m : List (String × β)) (k : String) : Bool :=
  (amLookup m k).isSome || decide (k ∈ objectProtoKeys)

/-- Model of the per-collection metadata object built by the
`CollectionMetadata` constructor: aggregate size and length, timestamps, and
the four per-document maps. -/
structure CollMeta where
  name : String
  sizeKB : ℚ
  length : Int
  createdAt : Nat
  modifiedAt : Nat
  documentSizes : List (String × ℚ)
  documentModifiedAt : List (String × Nat)
  documentPermanent : List (String × Nat)
  documentAttachments : List (String × Nat)
deriving Repr, DecidableEq

/-- Fresh collection metadata as initialised by the `CollectionMetadata`
constructor when no existing metadata is supplied. -/
def emptyCollMeta (collectionName : String) (now : Nat) : CollMeta :=
  { name := collectionName
    sizeKB := 0
    length := 0
    createdAt := now
    modifiedAt := now
    documentSizes := []
    documentModifiedAt := []
    documentPermanent := []
    documentAttachments := [] }

/-- Model of `CollectionMetadata.updateDocument` restricted to document ids
that are not inherited `Object.prototype` property names: detect a new
document by `Object.keys` membership in the size map, compute the size and
length deltas against the previous state (on this id domain the source read
`documentSizes[docId] || 0` equals the own-property read with default `0`),
write the four per-document maps, apply the deltas to the collection
aggregates and stamp `modifiedAt`.  Returns the updated metadata together
with the `(sizeKBChange, lengthChange)` pair that the source passes to
`DatabaseMetadata.adjustTotals`.  The unrestricted JS-faithful model,
including the prototype-chain read that turns the delta into NaN for an
inherited name, is `CollMetaJs.updateDocument` below. -/
def CollMeta.updateDocument (c : CollMeta) (now : Nat) (docId : String)
    (docSizeKB : ℚ) (isPermanent : Bool) (attachmentCount : Nat) :
    CollMeta × ℚ × Int :=
  let isNewDocument := (amLookup c.documentSizes docId).isNone
  let previousDocSizeKB := (amLookup c.documentSizes docId).getD 0
  let sizeKBChange := docSizeKB - previousDocSizeKB
  let lengthChange : Int := if isNewDocument then 1 else 0
  ({ c with
      documentSizes := amSet c.documentSizes docId docSizeKB
      documentModifiedAt := amSet c.documentModifiedAt docId now
      documentPermanent := amSet c.documentPermanent docId (if isPermanent then 1 else 0)
      documentAttachments := amSet c.documentAttachments docId attachmentCount
      sizeKB := c.sizeKB + sizeKBChange
      length := c.length + lengthChange
      modifiedAt := now },
   sizeKBChange, lengthChange)

/-- Model of `CollectionMetadata.deleteDocument`: no-op returning `false` when
the id is unknown, otherwise remove the id from the four maps, apply the
negative deltas to the aggregates and stamp `modifiedAt`.  Returns the deltas
passed to `adjustTotals` and the boolean result. -/
def CollMeta.deleteDocument (c : CollMeta) (now : Nat) (docId : String) :
    CollMeta × ℚ × Int × Bool :=
  match amLookup c.documentSizes docId with
  | none => (c, 0, 0, false)
  | some docSizeKB =>
    let sizeKBChange := -docSizeKB
    let lengthChange : Int := -1
    ({ c with
        documentSizes := amErase c.documentSizes docId
        documentModifiedAt := amErase c.documentModifiedAt docId
        documentPermanent := amErase c.documentPermanent docId
        documentAttachments := amErase c.documentAttachments docId
        sizeKB := c.sizeKB + sizeKBChange
        length := c.length + lengthChange
        modifiedAt := now },
     sizeKBChange, lengthChange, true)

/-- Model of the database-level metadata tree (`DatabaseMetadata`). -/
structure DbMeta where
  name : String
  collections : List (String × CollMeta)
  totalSizeKB : ℚ
  totalLength : Int
  modifiedAt : Nat
deriving Repr, DecidableEq

/-- A metadata mutation: the single and batch document operations of claim C1. -/
inductive MetaOp where
  | upd (collectionName docId : String) (docSizeKB : ℚ) (isPermanent : Bool)
      (attachmentCount : Nat)
  | del (collectionName docId : String)
  | updBatch (collectionName : String) (updates : List (String × ℚ × Bool))
  | delBatch (collectionName : String) (docIds : List String)

/-- The document ids a metadata mutation touches. -/
def MetaOp.docIds : MetaOp → List String
  | .upd _ i _ _ _ => [i]
  | .del _ i => [i]
  | .updBatch _ us => us.map Prod.fst
  | .delBatch _ is => is

/-- A JS number that may be NaN, for aggregates updated with possibly-NaN
deltas. -/
inductive JsNumber where
  | num (q : ℚ)
  | nan
deriving Repr, DecidableEq

/-- JS addition with NaN propagation. -/
def JsNumber.add : JsNumber → JsNumber → JsNumber
  | .num a, .num b => .num (a + b)
  | _, _ => .nan

/-- JS subtraction with NaN propagation. -/
def JsNumber.sub : JsNumber → JsNumber → JsNumber
  | .num a, .num b => .num (a - b)
  | _, _ => .nan

/-- The read `documentSizes[docId] || 0` of `CollectionMetadata.updateDocument`
as the subtraction that follows consumes it: the own value when present
(`0 || 0` is `0`), NaN when the name is inherited from `Object.prototype`
(the inherited member is truthy, so `||` keeps it, and it converts to NaN),
and `0` when the property is absent altogether. -/
def readSizeOrZero (m : List (String × ℚ)) (k : String) : JsNumber :=
  match amLookup m k with
  | some v => .num v
  | none => if k ∈ objectProtoKeys then .nan else .num 0

/-- Property assignment `map[k] = v` on a plain object: creates or replaces an
own property — except for `__proto__`, where the inherited accessor of
`Object.prototype` receives the write, ignores a non-object value and installs
no own property. -/
def jsSetProp {β : Type} (m : List (String × β)) (k : String) (v : β) :
    List (String × β) :=
  if k = "__proto__" then m else amSet m k v

/-- JS-faithful per-collection metadata: as `CollMeta`, but with the aggregate
size an actual JS number, so that NaN contamination is representable. -/
structure CollMetaJs where
  name : String
  sizeKB : JsNumber
  length : Int
  createdAt : Nat
  modifiedAt : Nat
  documentSizes : List (String × ℚ)
  documentModifiedAt : List (String × Nat)
  documentPermanent : List (String × Nat)
  documentAttachments : List (String × Nat)
deriving Repr, DecidableEq

/-- Fresh collection metadata, as the `CollectionMetadata` constructor builds
it. -/
def emptyCollMetaJs (collectionName : String) (now : Nat) : CollMetaJs :=
  { name := collectionName
    sizeKB := .num 0
    length := 0
    createdAt := now
    modifiedAt := now
    documentSizes := []
    documentModifiedAt := []
    documentPermanent := []
    documentAttachments := [] }

/-- JS-faithful model of `CollectionMetadata.updateDocument`: newness via
`Object.keys` (own keys only), the previous size via the prototype-chain read
`documentSizes[docId] || 0`, property writes through plain-object assignment,
and the aggregate updated with NaN-propagating arithmetic. -/
def CollMetaJs.updateDocument (c : CollMetaJs) (now : Nat) (docId : String)
    (docSizeKB : ℚ) (isPermanent : Bool) (attachmentCount : Nat) :
    CollMetaJs × JsNumber × Int :=
  let isNewDocument := (amLookup c.documentSizes docId).isNone
  let previousDocSizeKB := readSizeOrZero c.documentSizes docId
  let sizeKBChange := JsNumber.sub (.num docSizeKB) previousDocSizeKB
  let lengthChange : Int := if isNewDocument then 1 else 0
  ({ c with
      documentSizes := jsSetProp c.documentSizes docId docSizeKB
      documentModifiedAt := jsSetProp c.documentModifiedAt docId now
      documentPermanent := jsSetProp c.documentPermanent docId (if isPermanent then 1 else 0)
      documentAttachments := jsSetProp c.documentAttachments docId attachmentCount
      sizeKB := JsNumber.add c.sizeKB sizeKBChange
      length := c.length + lengthChange
      modifiedAt := now },
   sizeKBChange, lengthChange)

/-- JS-faithful model of `CollectionMetadata.deleteDocument`: the guard uses
`Object.keys` membership, the removed size is the own value (present past the
guard), and `delete` removes only own properties.  No-op returning `false`
for an unknown id. -/
def CollMetaJs.deleteDocument (c : CollMetaJs) (now : Nat) (docId : String) :
    CollMetaJs × JsNumber × Int × Bool :=
  match amLookup c.documentSizes docId with
  | none => (c, .num 0, 0, false)
  | some docSizeKB =>
    ({ c with
        documentSizes := amErase c.documentSizes docId
        documentModifiedAt := amErase c.documentModifiedAt docId
        documentPermanent := amErase c.documentPermanent docId
        documentAttachments := amErase c.documentAttachments docId
        sizeKB := JsNumber.add c.sizeKB (.num (-docSizeKB))
        length := c.length + (-1)
        modifiedAt := now },
     .num (-docSizeKB), -1, true)

/-- JS-faithful database-level metadata tree; the collections map mirrors the
`Map` of `DatabaseMetadata` (a real `Map`, so no prototype chain there). -/
structure DbMetaJs where
  name : String
  collections : List (String × CollMetaJs)
  totalSizeKB : JsNumber
  totalLength : Int
  modifiedAt : Nat
deriving Repr, DecidableEq

/-- Fresh database metadata as initialised by `_loadMetadata` when nothing is
persisted yet. -/
def initDbMetaJs (dbName : String) (now : Nat) : DbMetaJs :=
  { name := dbName
    collections := []
    totalSizeKB := .num 0
    totalLength := 0
    modifiedAt := now }

/-- Model of `DatabaseMetadata.adjustTotals` with NaN-propagating addition. -/
def DbMetaJs.adjustTotals (db : DbMetaJs) (now : Nat) (sizeKBChange : JsNumber)
    (lengthChange : Int) : DbMetaJs :=
  { db with
      totalSizeKB := JsNumber.add db.totalSizeKB sizeKBChange
      totalLength := db.totalLength + lengthChange
      modifiedAt := now }

/-- Model of `DatabaseMetadata.getCollectionMetadata` (`Map`-backed
get-or-create). -/
def DbMetaJs.getCollectionMetadata (db : DbMetaJs) (now : Nat)
    (collectionName : String) : DbMetaJs × CollMetaJs :=
  match amLookup db.collections collectionName with
  | some c => (db, c)
  | none =>
    let c := emptyCollMetaJs collectionName now
    ({ db with
        collections := amSet db.collections collectionName c
        modifiedAt := now }, c)

/-- A document update driven through the metadata tree, as the collection
engine performs it. -/
def DbMetaJs.updateDocument (db : DbMetaJs) (now : Nat) (collectionName docId : String)
    (docSizeKB : ℚ) (isPermanent : Bool) (attachmentCount : Nat) : DbMetaJs :=
  let g := db.getCollectionMetadata now collectionName
  let u := g.2.updateDocument now docId docSizeKB isPermanent attachmentCount
  ({ g.1 with collections := amSet g.1.collections collectionName u.1 }).adjustTotals
    now u.2.1 u.2.2

/-- A document deletion driven through the metadata tree; when the collection
metadata reports `false` nothing is mutated and `adjustTotals` is not
reached. -/
def DbMetaJs.deleteDocument (db : DbMetaJs) (now : Nat) (collectionName docId : String) :
    DbMetaJs :=
  let g := db.getCollectionMetadata now collectionName
  let d := g.2.deleteDocument now docId
  if d.2.2.2 then
    ({ g.1 with collections := amSet g.1.collections collectionName d.1 }).adjustTotals
      now d.2.1 d.2.2.1
  else g.1

/-- Model of the batch variant `CollectionMetadata.updateDocuments` (the
source passes no attachment count, so the default `0` applies). -/
def DbMetaJs.updateDocuments (db : DbMetaJs) (now : Nat) (collectionName : String)
    (updates : List (String × ℚ × Bool)) : DbMetaJs :=
  updates.foldl (fun d u => d.updateDocument now collectionName u.1 u.2.1 u.2.2 0) db

/-- Model of the batch variant `CollectionMetadata.deleteDocuments`. -/
def DbMetaJs.deleteDocuments (db : DbMetaJs) (now : Nat) (collectionName : String)
    (docIds : List String) : DbMetaJs :=
  docIds.foldl (fun d i => d.deleteDocument now collectionName i) db

/-- Apply one timestamped metadata mutation to the JS-faithful tree. -/
def applyMetaOpJs (db : DbMetaJs) : Nat × MetaOp → DbMetaJs
  | (now, .upd c i s p a) => db.updateDocument now c i s p a
  | (now, .del c i) => db.deleteDocument now c i
  | (now, .updBatch c us) => db.updateDocuments now c us
  | (now, .delBatch c is) => db.deleteDocuments now c is

/-- The per-collection invariant of the spec: the aggregate size is the real
sum of the size map and the aggregate length is its key count. -/
def CollMetaJs.Inv (c : CollMetaJs) : Prop :=
  c.sizeKB = .num (sumValues c.documentSizes)
  ∧ c.length = (c.documentSizes.length : Int)

/-- The database-level invariant: every collection satisfies its invariant and
the totals equal the sums over all collections. -/
def DbMetaJs.Inv (db : DbMetaJs) : Prop :=
  (∀ p ∈ db.collections, CollMetaJs.Inv p.2)
  ∧ db.totalSizeKB = .num ((db.collections.map fun p => sumValues p.2.documentSizes).sum)
  ∧ db.totalLength = ((db.collections.map fun p => p.2.length).sum)

/-- The single-mutation state the C1 counterexample evaluates: one update with
the document id `toString` applied to a fresh tree. -/
def counterexampleDbJs : DbMetaJs :=
  applyMetaOpJs (initDbMetaJs "db" 0) (1, .upd "c" "toString" 5 false 0)

/-! The collection engine: stored records, the object store, add / get /
delete and the eviction path. -/

/-- Document data as the static `Document` helpers see it: the `_encrypted`
flag and the `packedData` property, which may be absent (`none` models a JS
object without the property, read back as `undefined`). -/
structure DocView where
  encrypted : Bool
  packedData : Option (List Nat)
deriving Repr, DecidableEq

/-- JS truthiness of the `packedData` property: an absent property
(`undefined`) is falsy; any `Uint8Array` object — including an empty one — is
an object and therefore truthy. -/
def truthyBytes : Option (List Nat) → Bool
  | none => false
  | some _ => true

/-- Model of `Document.isEncrypted`
(`return documentData._encrypted && documentData.packedData;`), read as the
truthiness of the value the expression produces. -/
def isEncryptedView (d : DocView) : Bool :=
  d.encrypted && truthyBytes d.packedData

/-- The `_encrypted` and `_packedData` fields assigned by the `Document`
constructor: the flag is the stored flag or else the presence of a key, and
`_packedData` is the input buffer when the `packedData` property is truthy
(any object is) or a fresh `new Uint8Array(0)` otherwise. -/
def mkDocumentView (inputEncrypted : Bool) (inputPackedData : Option (List Nat))
    (encryptionKey : Option String) : DocView :=
  { encrypted := inputEncrypted || encryptionKey.isSome
    packedData :=
      match inputPackedData with
      | some pd => some pd
      | none => some [] }

/-- The record shape produced by `Document.databaseOutput` and stored in the
IndexedDB object store (the `_id` is the store key and is kept as the
association-list key). -/
structure DbRecord where
  created : Nat
  modified : Nat
  permanent : Bool
  compressed : Bool
  encrypted : Bool
  packedData : List Nat
deriving Repr, DecidableEq

/-- `Document.isEncrypted` applied to a stored record: such a record always
carries a `packedData` property. -/
def isEncryptedRecord (r : DbRecord) : Bool :=
  isEncryptedView { encrypted := r.encrypted, packedData := some r.packedData }

/-- The state of one collection: its metadata slice and the IndexedDB object
store, plus the `_lastFreeSpaceTime` bookkeeping field of `Collection`. -/
structure CollState where
  meta : CollMeta
  store : List (String × DbRecord)
  lastFreeSpaceTime : Nat
deriving Repr, DecidableEq

/-- A fresh collection (empty metadata and store), as after `Collection.init`
on a new database. -/
def initCollState (collectionName : String) (now : Nat) : CollState :=
  { meta := emptyCollMeta collectionName now
    store := []
    lastFreeSpaceTime := 0 }

/-- Caller-facing document payload passed to `Collection.addDocument` (the
random id generation of the source is modelled by the caller supplying the
id). -/
structure DocInput (α : Type) where
  id : String
  created : Option Nat
  permanent : Bool
  encrypted : Bool
  compressed : Bool
  data : α

/-- Model of `Collection.addDocument` (attachment-free path): construct the
document (the `_encrypted` flag is the input flag or the presence of a key),
pack it, predict new-vs-update with the `in` operator on the metadata size map
— which also reports names inherited from `Object.prototype` as present —
attempt an insert-only `add` for a predicted-new document, falling back to
`put` and reporting `false` when the record already exists, or `put` for a
predicted-existing one, then update the collection metadata with the packed
size in KB.  The post-write eviction check `_maybeFreeSpace` is omitted here:
both of its trigger getters evaluate to `false` on every state (see the
trigger model below), so it never calls `freeSpace`. -/
def addDocument {α : Type} (C : CodecPrims α) (salt iv : List Nat)
    (st : CollState) (input : DocInput α) (encryptionKey : Option String)
    (now : Nat) : Bool × CollState :=
  let encrypted := input.encrypted || encryptionKey.isSome
  let packedData :=
    packBytes C salt iv input.compressed encrypted (encryptionKey.getD "") input.data
  let docData : DbRecord :=
    { created := input.created.getD now
      modified := now
      permanent := input.permanent
      compressed := input.compressed
      encrypted := encrypted
      packedData := packedData }
  let docId := input.id
  let predictedNew := !(jsIn st.meta.documentSizes docId)
  let attempt : Bool × List (String × DbRecord) :=
    if predictedNew then
      match amLookup st.store docId with
      | some _ => (false, amSet st.store docId docData)
      | none => (true, amSet st.store docId docData)
    else (false, amSet st.store docId docData)
  let docSizeKB : ℚ := (packedData.length : ℚ) / 1024
  let u := st.meta.updateDocument now docId docSizeKB input.permanent 0
  (attempt.1, { st with meta := u.1, store := attempt.2 })

/-- The stored record written by `addDocument` in every branch (abbreviation
for the statements below). -/
def writtenRecord {α : Type} (C : CodecPrims α) (salt iv : List Nat)
    (input : DocInput α) (key : Option String) (now : Nat) : DbRecord :=
  { created := input.created.getD now
    modified := now
    permanent := input.permanent
    compressed := input.compressed
    encrypted := input.encrypted || key.isSome
    packedData := packBytes C salt iv input.compressed
      (input.encrypted || key.isSome) (key.getD "") input.data }

/-- Decoded output of `Document.objectOutput` for a stored record: `unpack`
runs only when the packed buffer is non-empty and the data slot is still
null, so an empty buffer leaves the data absent. -/
def objectOutputData {α : Type} (C : CodecPrims α) (r : DbRecord)
    (encryptionKey : String) : Except CodecError (Option α) :=
  if r.packedData.length = 0 then .ok none
  else
    match unpackBytes C r.compressed r.encrypted encryptionKey r.packedData with
    | .error e => .error e
    | .ok v => .ok (some v)

/-- Result of `Collection.getDocument`: the source returns `false` both for an
id missing from metadata and for an encrypted record read without a key;
otherwise it returns the object output. -/
inductive GetResult (α : Type) where
  | notFound
  | found (record : DbRecord) (data : Except CodecError (Option α))

/-- Model of `Collection.getDocument`: negative-cache on metadata membership,
fetch the record, and — when the record is encrypted — return `false` if no
key was supplied, else decode with the key. -/
def getDocument {α : Type} (C : CodecPrims α) (st : CollState) (docId : String)
    (encryptionKey : Option String) : GetResult α :=
  if (amLookup st.meta.documentSizes docId).isNone then .notFound
  else
    match amLookup st.store docId with
    | none => .notFound
    | some docData =>
      if isEncryptedRecord docData then
        match encryptionKey with
        | none => .notFound
        | some k => .found docData (objectOutputData C docData k)
      else .found docData (objectOutputData C docData (encryptionKey.getD ""))

/-- Model of `Collection.deleteDocument`: refuse for a permanent document
without `force` (the permanence map stores `1`/`0`, and `0` is falsy), refuse
for an unknown id, otherwise delete the record and update the metadata. -/
def deleteDocument (st : CollState) (docId : String) (force : Bool) (now : Nat) :
    Bool × CollState :=
  let isPermanent := decide ((amLookup st.meta.documentPermanent docId).getD 0 ≠ 0)
  if isPermanent && !force then (false, st)
  else if (amLookup st.meta.documentSizes docId).isNone then (false, st)
  else
    let d := st.meta.deleteDocument now docId
    (true, { st with meta := d.1, store := amErase st.store docId })

/-! The eviction trigger getters of `Collection`, with enough of the JS value
semantics to capture how they actually evaluate. -/

/-- JS numeric-ish values as they appear in the trigger expressions: a finite
number, `Infinity` (the default `sizeLimitKB`), `NaN`, and `undefined` (a
property that does not exist). -/
inductive JsVal where
  | num (q : ℚ)
  | posInf
  | nan
  | jsUndefined
deriving Repr, DecidableEq

/-- JS binary `+` on these values: `ToNumber(undefined)` is `NaN`, `NaN`
contaminates, `Infinity` absorbs finite addends. -/
def jsAdd : JsVal → JsVal → JsVal
  | .num a, .num b => .num (a + b)
  | .posInf, .num _ => .posInf
  | .num _, .posInf => .posInf
  | .posInf, .posInf => .posInf
  | _, _ => .nan

/-- JS `>` comparison: false whenever either operand converts to `NaN`. -/
def jsGt : JsVal → JsVal → Bool
  | .num a, .num b => a > b
  | .posInf, .num _ => true
  | .num _, .posInf => false
  | .posInf, .posInf => false
  | _, _ => false

/-- JS `>=` comparison: false whenever either operand converts to `NaN`. -/
def jsGe : JsVal → JsVal → Bool
  | .num a, .num b => a ≥ b
  | .posInf, .num _ => true
  | .num _, .posInf => false
  | .posInf, .posInf => true
  | _, _ => false

/-- The `Settings` instance: the configured values live in `this._data` (read
through the `data` getter or `get(key)`), not as instance properties. -/
structure SettingsObj where
  data : List (String × JsVal)
deriving Repr, DecidableEq

/-- Reading `settingsData.<name>`, i.e. a property of the stored data map. -/
def SettingsObj.dataProp (s : SettingsObj) (name : String) : JsVal :=
  (amLookup s.data name).getD .jsUndefined

/-- Reading `this.settings.bufferLimitKB`: the `Settings` class declares no
such field or accessor (the value lives only in `_data`), so the property
access yields `undefined`. -/
def SettingsObj.bufferLimitKB (_s : SettingsObj) : JsVal := .jsUndefined

/-- Reading `this.settings.freeSpaceEvery`: likewise not an instance
property, so `undefined`. -/
def SettingsObj.freeSpaceEvery (_s : SettingsObj) : JsVal := .jsUndefined

/-- The state read by the trigger getters of `Collection`. -/
structure TriggerState where
  totalSizeKB : JsVal
  settings : SettingsObj
  lastFreeSpaceTime : Nat
  now : Nat
deriving Repr, DecidableEq

/-- Model of `get shouldRunFreeSpaceSize`:
`this.totalSizeKB > this.settingsData.sizeLimitKB + this.settings.bufferLimitKB`. -/
def shouldRunFreeSpaceSize (c : TriggerState) : Bool :=
  jsGt c.totalSizeKB (jsAdd (c.settings.dataProp "sizeLimitKB") c.settings.bufferLimitKB)

/-- Model of `get isFreeSpaceEnabled`:
`this.settings.freeSpaceEvery !== Infinity`. -/
def isFreeSpaceEnabled (c : TriggerState) : Bool :=
  decide (c.settings.freeSpaceEvery ≠ JsVal.posInf)

/-- Model of `get shouldRunFreeSpaceTime`: the enabled check conjoined with
`Date.now() - this.lastFreeSpaceTime >= this.settings.freeSpaceEvery`. -/
def shouldRunFreeSpaceTime (c : TriggerState) : Bool :=
  isFreeSpaceEnabled c
    && jsGe (.num ((c.now : ℚ) - (c.lastFreeSpaceTime : ℚ))) c.settings.freeSpaceEvery

/-- The intended size trigger, reading the buffer limit from the settings data
map as `Settings.init` stores it; kept for comparison with the access the
source actually performs. -/
def intendedFreeSpaceSizeTrigger (c : TriggerState) : Bool :=
  jsGt c.totalSizeKB
    (jsAdd (c.settings.dataProp "sizeLimitKB") (c.settings.dataProp "bufferLimitKB"))

/-! The eviction path `Collection.freeSpace`. -/

/-- Runtime failure of `freeSpace`: its first line ends in a bare identifier
`$` (`this.lastFreeSpaceTime = Date.now(); $`); evaluating an unbound
identifier throws a `ReferenceError`. -/
inductive JsRuntimeError where
  | referenceError
deriving Repr, DecidableEq

/-- Stable insertion of one timestamped entry (equal keys keep their relative
order, as the ECMAScript sort is stable). -/
def insertSorted (p : String × Nat) : List (String × Nat) → List (String × Nat)
  | [] => [p]
  | q :: rest => if p.2 < q.2 then p :: q :: rest else q :: insertSorted p rest

/-- Model of `Object.entries(...).sort((a, b) => a[1] - b[1])`: a stable sort
ascending by modification timestamp. -/
def sortByModified (l : List (String × Nat)) : List (String × Nat) :=
  l.foldl (fun acc p => insertSorted p acc) []

/-- The deletion loop of `freeSpace`: walk the candidate entries; while the
collection is still above the bound, read the candidate size from the
metadata, add it to the running total, force-delete the document and stop once
the total reaches the amount to free. -/
def evictLoop (size spaceToFree : ℚ) (now : Nat) :
    List (String × Nat) → ℚ → CollState → ℚ × CollState
  | [], totalFreed, st => (totalFreed, st)
  | (docId, _) :: rest, totalFreed, st =>
    if st.meta.sizeKB > size then
      let docSize := (amLookup st.meta.documentSizes docId).getD 0
      let totalFreed := totalFreed + docSize
      let st := (deleteDocument st docId true now).2
      if totalFreed ≥ spaceToFree then (totalFreed, st)
      else evictLoop size spaceToFree now rest totalFreed st
    else evictLoop size spaceToFree now rest totalFreed st

/-- The eviction candidate list built by `freeSpace`: the entries of the
modification-time map whose permanence flag is falsy (the map stores `1`/`0`),
sorted ascending by timestamp. -/
def evictCandidates (st : CollState) : List (String × Nat) :=
  sortByModified (st.meta.documentModifiedAt.filter
    fun p => decide ((amLookup st.meta.documentPermanent p.1).getD 0 = 0))

/-- Model of `Collection.freeSpace`.  `dollarDefined` says whether the global
environment binds the identifier `$` (standard browsers do not; pages that
load jQuery do): the first statement of the body evaluates the bare `$`, so
when it is unbound every call throws a `ReferenceError` before any further
work.  The rest mirrors the source: a non-negative `size` is the bound to
shrink to (no-op returning `0` when usage is already within it, otherwise the
amount to free is the overshoot); a negative `size` is the amount to free and
the bound becomes the current size minus that amount; candidates are the
non-permanent documents sorted ascending by modification time. -/
def freeSpace (dollarDefined : Bool) (st : CollState) (size : ℚ) (now : Nat) :
    Except JsRuntimeError (ℚ × CollState) :=
  let st := { st with lastFreeSpaceTime := now }
  if !dollarDefined then .error .referenceError
  else if size ≥ 0 ∧ st.meta.sizeKB ≤ size then .ok (0, st)
  else if size ≥ 0 then
    .ok (evictLoop size (st.meta.sizeKB - size) now (evictCandidates st) 0 st)
  else
    .ok (evictLoop (st.meta.sizeKB - (-size)) (-size) now (evictCandidates st) 0 st)

/-! Database lifecycle state for `Database.deleteDatabase`. -/

/-- Values persisted in localStorage by this module (the serialized payloads
are modelled structurally). -/
inductive StoredVal where
  | settingsVal (data : List (String × JsVal))
  | metadataVal (m : DbMeta)
deriving Repr, DecidableEq

/-- The localStorage key of the database metadata, as built by the
`DatabaseMetadata` constructor. -/
def metadataKeyOf (dbName : String) : String :=
  "lacertadb_" ++ dbName ++ "_metadata"

/-- The localStorage key of the settings, as built by the `Settings`
constructor. -/
def settingsKeyOf (dbName : String) : String :=
  "lacertadb_" ++ dbName ++ "_settings"

/-- The state of a `Database` instance relevant to `deleteDatabase`: the
IndexedDB handle and backing database, the metadata reference (nullable), the
settings data, and the synchronous localStorage map. -/
structure DatabaseState where
  dbName : String
  dbHandleOpen : Bool
  idbExists : Bool
  metadata : Option DbMeta
  settingsData : List (String × JsVal)
  localStore : List (String × StoredVal)
deriving Repr, DecidableEq

/-- Exception raised while running `deleteDatabase`: reading the
`metadataKey` property of `null`. -/
inductive JsException where
  | typeError
deriving Repr, DecidableEq

/-- Model of `Database.deleteDatabase`: close the handle, delete the
IndexedDB database, assign `null` to the metadata (`this.data = null`), clear
the settings (`Settings.clear` resets the data and persists the empty map
under the settings key), then call
`LocalStorageUtility.removeItem(this.data.metadataKey)` — but `this.data` is
now `null`, so the property read throws a `TypeError` and the removal is
never reached.  The mutations made before the throw persist, so the function
returns the final state alongside the exception. -/
def deleteDatabase (st : DatabaseState) : DatabaseState × Option JsException :=
  let st := { st with dbHandleOpen := false }
  let st := { st with idbExists := false }
  let st := { st with metadata := none }
  let st := { st with
      settingsData := []
      localStore := amSet st.localStore (settingsKeyOf st.dbName) (.settingsVal []) }
  match st.metadata with
  | none => (st, some .typeError)
  | some m =>
    ({ st with localStore := amErase st.localStore (metadataKeyOf m.name) }, none)

/-! Concrete collaborator instantiations used by the witnesses: trivially
correct serializer, compressor and cipher satisfying the round-trip contracts
of the external interfaces. -/

/-- A concrete crypto collaborator: identity cipher, constant key derivation
and a constant 32-byte digest. -/
def testCrypto : CryptoPrims :=
  { cipherEncrypt := fun _ _ m => m
    cipherDecrypt := fun _ _ c => some c
    deriveKey := fun _ _ => []
    sha256 := fun _ => List.replicate 32 0 }

/-- A concrete codec collaborator over raw byte lists. -/
def testCodec : CodecPrims (List Nat) :=
  { toCryptoPrims := testCrypto
    jpack := fun v => v
    junpack := fun b => b
    compress := fun b => b
    decompress := fun b => b }

/-- A 16-byte test salt. -/
def testSalt : List Nat := List.replicate 16 1

/-- A 12-byte test iv. -/
def testIv : List Nat := List.replicate 12 2

/-- A crypto collaborator whose decryption returns a buffer whose trailing 32
bytes disagree with the recomputed digest, to exercise the integrity branch. -/
def tamperedCrypto : CryptoPrims :=
  { cipherEncrypt := fun _ _ m => m
    cipherDecrypt := fun _ _ _ => some (List.replicate 40 7)
    deriveKey := fun _ _ => []
    sha256 := fun _ => List.replicate 32 0 }

/-- An encrypted stored record used by the locked-read scenario. -/
def encryptedRecord : DbRecord :=
  { created := 5
    modified := 5
    permanent := false
    compressed := false
    encrypted := true
    packedData := List.replicate 40 9 }

/-- A collection state holding one encrypted document `"x"`, as after an add
with `encrypted = true` and a key. -/
def lockedCollState : CollState :=
  { meta :=
      { emptyCollMeta "c" 5 with
          sizeKB := 40 / 1024
          length := 1
          documentSizes := [("x", 40 / 1024)]
          documentModifiedAt := [("x", 5)]
          documentPermanent := [("x", 0)]
          documentAttachments := [("x", 0)] }
    store := [("x", encryptedRecord)]
    lastFreeSpaceTime := 0 }

/-- A trigger state far above its configured limits: 100 KB stored against a
10 KB size limit with a −2 KB buffer limit, so the spec requires the size
trigger to fire. -/
def overLimitTriggerState : TriggerState :=
  { totalSizeKB := .num 100
    settings := { data := [("sizeLimitKB", .num 10), ("bufferLimitKB", .num (-2))] }
    lastFreeSpaceTime := 0
    now := 50000 }

/-! Theorems.  Helper lemmas first, then one theorem per claim (with witness
or counterexample theorems as required). -/

theorem uset_fill (a src : List Nat) (k : Nat) :
    uset (a ++ List.replicate (src.length + k) 0) a.length src
      = a ++ src ++ List.replicate k 0 := by
  unfold uset
  rw [List.take_left, List.drop_append, List.drop_replicate]
  simp [List.append_assoc]

theorem wrapIntoUint8Array_eq (salt iv encryptedData : List Nat) :
    wrapIntoUint8Array salt iv encryptedData = salt ++ iv ++ encryptedData := by
  have h1 : uset (List.replicate (salt.length + iv.length + encryptedData.length) 0) 0 salt
      = salt ++ List.replicate (iv.length + encryptedData.length) 0 := by
    have := uset_fill [] salt (iv.length + encryptedData.length)
    simpa [Nat.add_assoc] using this
  have h2 : uset (salt ++ List.replicate (iv.length + encryptedData.length) 0)
        salt.length iv
      = salt ++ iv ++ List.replicate encryptedData.length 0 := by
    have := uset_fill salt iv encryptedData.length
    simpa [List.append_assoc] using this
  have h3 : uset (salt ++ iv ++ List.replicate encryptedData.length 0)
        (salt.length + iv.length) encryptedData
      = salt ++ iv ++ encryptedData := by
    have h := uset_fill (salt ++ iv) encryptedData 0
    simp only [List.length_append] at h
    simpa [List.append_assoc] using h
  show uset (uset (uset (List.replicate (salt.length + iv.length + encryptedData.length) 0)
      0 salt) salt.length iv) (salt.length + iv.length) encryptedData
    = salt ++ iv ++ encryptedData
  rw [h1, h2, h3]

theorem combineDataAndChecksum_eq (data checksum : List Nat) :
    combineDataAndChecksum data checksum = data ++ checksum := by
  have h1 : uset (List.replicate (data.length + checksum.length) 0) 0 data
      = data ++ List.replicate checksum.length 0 := by
    have := uset_fill [] data checksum.length
    simpa using this
  have h2 : uset (data ++ List.replicate checksum.length 0) data.length checksum
      = data ++ checksum := by
    have := uset_fill data checksum 0
    simpa using this
  show uset (uset (List.replicate (data.length + checksum.length) 0) 0 data)
      data.length checksum = data ++ checksum
  rw [h1, h2]

theorem separateDataAndChecksum_eq (data checksum : List Nat)
    (h : checksum.length = 32) :
    separateDataAndChecksum (data ++ checksum) = (data, checksum) := by
  have hlen : (data ++ checksum).length - 32 = data.length := by
    simp [List.length_append, h]
  show (List.take ((data ++ checksum).length - 32) (data ++ checksum),
        List.drop ((data ++ checksum).length - 32) (data ++ checksum)) = (data, checksum)
  rw [hlen, List.take_left, List.drop_left]

theorem zipAll_eq_iff : ∀ a b : List Nat, a.length = b.length →
    ((((a.zip b).all fun p => p.1 == p.2) = true) ↔ a = b) := by
  intro a
  induction a with
  | nil =>
    intro b h
    cases b with
    | nil => simp
    | cons y ys => simp at h
  | cons x xs ih =>
    intro b h
    cases b with
    | nil => simp at h
    | cons y ys =>
      simp only [List.length_cons] at h
      have h2 : xs.length = ys.length := by omega
      simp [List.zip_cons_cons, List.all_cons, beq_iff_eq, ih ys h2, List.cons.injEq]

theorem verifyChecksum_iff (a b : List Nat) : verifyChecksum a b = true ↔ a = b := by
  unfold verifyChecksum
  by_cases h : a.length = b.length
  · simp only [h, ne_eq, not_true_eq_false, if_false]
    exact zipAll_eq_iff a b h
  · have hne : a ≠ b := fun he => h (by rw [he])
    simp [h, hne]

theorem encryptBytes_eq (P : CryptoPrims) (salt iv data : List Nat)
    (password : String) :
    encryptBytes P salt iv data password
      = salt ++ iv
          ++ P.cipherEncrypt (P.deriveKey password salt) iv (data ++ P.sha256 data) := by
  show wrapIntoUint8Array salt iv
      (P.cipherEncrypt (P.deriveKey password salt) iv
        (combineDataAndChecksum data (P.sha256 data)))
    = salt ++ iv ++ P.cipherEncrypt (P.deriveKey password salt) iv (data ++ P.sha256 data)
  rw [combineDataAndChecksum_eq, wrapIntoUint8Array_eq]

/-- C2 (confirmed): for every plaintext and password (and every 16-byte salt
and 12-byte nonce drawn from the RNG), `encrypt` produces
`salt(16) || nonce(12) || ciphertext`, where the buffer handed to the cipher
is the payload with its SHA-256 digest appended. -/
theorem encrypt_wire_format (P : CryptoPrims) (salt iv data : List Nat)
    (password : String) (hsalt : salt.length = 16) (hiv : iv.length = 12) :
    encryptBytes P salt iv data password
      = salt ++ iv ++ P.cipherEncrypt (P.deriveKey password salt) iv (data ++ P.sha256 data)
    ∧ (encryptBytes P salt iv data password).take 16 = salt
    ∧ ((encryptBytes P salt iv data password).drop 16).take 12 = iv
    ∧ (encryptBytes P salt iv data password).drop 28
        = P.cipherEncrypt (P.deriveKey password salt) iv (data ++ P.sha256 data) := by
  have hmain := encryptBytes_eq P salt iv data password
  refine ⟨hmain, ?_, ?_, ?_⟩
  · rw [hmain, List.append_assoc]
    exact List.take_left' hsalt
  · rw [hmain, List.append_assoc, List.drop_left' hsalt]
    exact List.take_left' hiv
  · rw [hmain]
    exact List.drop_left' (by simp [hsalt, hiv])

/-- Witness for C2 at a concrete salt, iv, payload and password. -/
theorem encrypt_wire_format_witness :
    testSalt.length = 16 ∧ testIv.length = 12
    ∧ (encryptBytes testCrypto testSalt testIv [5, 6] "pw").take 16 = testSalt :=
  ⟨by decide, by decide,
    (encrypt_wire_format testCrypto testSalt testIv [5, 6] "pw" (by decide) (by decide)).2.1⟩

theorem decryptBytes_eq (P : CryptoPrims) (w : List Nat) (password : String) :
    decryptBytes P w password =
      match P.cipherDecrypt (P.deriveKey password (w.take 16)) ((w.drop 16).take 12)
          (w.drop 28) with
      | none => .error .cryptoError
      | some decryptedData =>
        if verifyChecksum (P.sha256 (decryptedData.take (decryptedData.length - 32)))
            (decryptedData.drop (decryptedData.length - 32)) then
          .ok (decryptedData.take (decryptedData.length - 32))
        else .error .integrityError := rfl

/-- C3 (confirmed): whenever the cipher yields a combined buffer whose
trailing 32 bytes differ from the SHA-256 digest recomputed over the remaining
bytes, `decrypt` fails with the IntegrityError; when the cipher rejects the
tag it fails with the CryptoError; and every successful decryption returns
exactly a cipher output whose carried digest matched the recomputed one, so
corrupted data is never returned as a success. -/
theorem decrypt_integrity (P : CryptoPrims) (w : List Nat) (password : String) :
    (∀ combined,
        P.cipherDecrypt (P.deriveKey password (w.take 16)) ((w.drop 16).take 12) (w.drop 28)
          = some combined →
        P.sha256 (combined.take (combined.length - 32))
          ≠ combined.drop (combined.length - 32) →
        decryptBytes P w password = .error .integrityError)
    ∧ (P.cipherDecrypt (P.deriveKey password (w.take 16)) ((w.drop 16).take 12) (w.drop 28)
          = none →
        decryptBytes P w password = .error .cryptoError)
    ∧ (∀ d, decryptBytes P w password = .ok d →
        ∃ combined,
          P.cipherDecrypt (P.deriveKey password (w.take 16)) ((w.drop 16).take 12) (w.drop 28)
            = some combined
          ∧ d = combined.take (combined.length - 32)
          ∧ P.sha256 d = combined.drop (combined.length - 32)) := by
  refine ⟨?_, ?_, ?_⟩
  · intro combined hc hne
    have hv : verifyChecksum (P.sha256 (combined.take (combined.length - 32)))
        (combined.drop (combined.length - 32)) = false := by
      rw [Bool.eq_false_iff]
      intro h
      exact hne ((verifyChecksum_iff _ _).mp h)
    rw [decryptBytes_eq, hc]
    simp [hv]
  · intro hc
    rw [decryptBytes_eq, hc]
  · intro d hd
    rw [decryptBytes_eq] at hd
    cases hcd : P.cipherDecrypt (P.deriveKey password (w.take 16)) ((w.drop 16).take 12)
        (w.drop 28) with
    | none => rw [hcd] at hd; simp at hd
    | some combined =>
      rw [hcd] at hd
      by_cases hv : verifyChecksum (P.sha256 (combined.take (combined.length - 32)))
          (combined.drop (combined.length - 32)) = true
      · simp only [hv, if_true] at hd
        have hdc : combined.take (combined.length - 32) = d := by
          injection hd
        refine ⟨combined, rfl, hdc.symm, ?_⟩
        rw [← hdc]
        exact (verifyChecksum_iff _ _).mp hv
      · simp only [Bool.not_eq_true] at hv
        simp [hv] at hd

/-- Witness for C3: a cipher that returns a buffer with a mismatched trailing
digest makes decryption fail with the IntegrityError. -/
theorem decrypt_integrity_witness :
    decryptBytes tamperedCrypto (List.replicate 40 3) "pw" = .error .integrityError :=
  (decrypt_integrity tamperedCrypto (List.replicate 40 3) "pw").1
    (List.replicate 40 7) rfl (by decide)

theorem decryptBytes_encryptBytes (P : CryptoPrims) (salt iv data : List Nat)
    (password : String) (hsalt : salt.length = 16) (hiv : iv.length = 12)
    (hsha : (P.sha256 data).length = 32)
    (hcipher : P.cipherDecrypt (P.deriveKey password salt) iv
        (P.cipherEncrypt (P.deriveKey password salt) iv (data ++ P.sha256 data))
      = some (data ++ P.sha256 data)) :
    decryptBytes P (encryptBytes P salt iv data password) password = .ok data := by
  have henc := encryptBytes_eq P salt iv data password
  have h1 : (salt ++ iv
        ++ P.cipherEncrypt (P.deriveKey password salt) iv (data ++ P.sha256 data)).take 16
      = salt := by
    rw [List.append_assoc]
    exact List.take_left' hsalt
  have h2 : ((salt ++ iv
        ++ P.cipherEncrypt (P.deriveKey password salt) iv (data ++ P.sha256 data)).drop 16).take 12
      = iv := by
    rw [List.append_assoc, List.drop_left' hsalt]
    exact List.take_left' hiv
  have h3 : (salt ++ iv
        ++ P.cipherEncrypt (P.deriveKey password salt) iv (data ++ P.sha256 data)).drop 28
      = P.cipherEncrypt (P.deriveKey password salt) iv (data ++ P.sha256 data) :=
    List.drop_left' (by simp [hsalt, hiv])
  have hlen : (data ++ P.sha256 data).length - 32 = data.length := by
    simp [List.length_append, hsha]
  have htake : (data ++ P.sha256 data).take ((data ++ P.sha256 data).length - 32) = data := by
    rw [hlen]
    exact List.take_left data _
  have hdrop : (data ++ P.sha256 data).drop ((data ++ P.sha256 data).length - 32)
      = P.sha256 data := by
    rw [hlen]
    exact List.drop_left data _
  have hred : decryptBytes P (encryptBytes P salt iv data password) password
      = if verifyChecksum
            (P.sha256 ((data ++ P.sha256 data).take ((data ++ P.sha256 data).length - 32)))
            ((data ++ P.sha256 data).drop ((data ++ P.sha256 data).length - 32)) then
          Except.ok ((data ++ P.sha256 data).take ((data ++ P.sha256 data).length - 32))
        else Except.error CodecError.integrityError := by
    rw [decryptBytes_eq, henc, h1, h2, h3, hcipher]
  rw [hred, htake, hdrop, (verifyChecksum_iff (P.sha256 data) (P.sha256 data)).mpr rfl]
  simp

/-- C4 (confirmed): for every supported value and every combination of the
compressed and encrypted flags, with the same key on both sides, unpacking the
result of packing yields the original value — given the round-trip contracts
of the serializer, compressor and cipher collaborators. -/
theorem pack_unpack_roundtrip {α : Type} (C : CodecPrims α) (salt iv : List Nat)
    (password : String) (compressed encrypted : Bool) (v : α)
    (hsalt : salt.length = 16) (hiv : iv.length = 12)
    (hsha : ∀ b, (C.sha256 b).length = 32)
    (hcipher : ∀ key iv2 m, C.cipherDecrypt key iv2 (C.cipherEncrypt key iv2 m) = some m)
    (hcomp : ∀ b, C.decompress (C.compress b) = b)
    (hser : ∀ x, C.junpack (C.jpack x) = x) :
    unpackBytes C compressed encrypted password
        (packBytes C salt iv compressed encrypted password v)
      = .ok v := by
  cases encrypted with
  | false =>
    cases compressed with
    | false => simp [packBytes, unpackBytes, hser]
    | true => simp [packBytes, unpackBytes, hcomp, hser]
  | true =>
    have hd := decryptBytes_encryptBytes C.toCryptoPrims salt iv
      (if compressed then C.compress (C.jpack v) else C.jpack v) password hsalt hiv
      (hsha _) (hcipher _ _ _)
    cases compressed with
    | false =>
      simp only [if_false, Bool.false_eq_true] at hd
      simp [packBytes, unpackBytes, hd, hser]
    | true =>
      simp only [if_true] at hd
      simp [packBytes, unpackBytes, hd, hcomp, hser]

/-- Witness for C4 with both flags set at a concrete value, using concrete
collaborators satisfying the round-trip contracts. -/
theorem pack_unpack_roundtrip_witness :
    unpackBytes testCodec true true "pw"
        (packBytes testCodec testSalt testIv true true "pw" [3, 9])
      = .ok [3, 9] :=
  pack_unpack_roundtrip testCodec testSalt testIv "pw" true true [3, 9]
    (by decide) (by decide) (fun _ => rfl) (fun _ _ _ => rfl) (fun _ => rfl)
    (fun _ => rfl)

/-! Association-list lemmas feeding the metadata invariant. -/

theorem amLookup_amSet_self {β : Type} (m : List (String × β)) (k : String) (v : β) :
    amLookup (amSet m k v) k = some v := by
  induction m with
  | nil => simp [amSet, amLookup]
  | cons p rest ih =>
    obtain ⟨k1, v1⟩ := p
    by_cases h : k1 = k
    · subst h; simp [amSet, amLookup]
    · simp [amSet, amLookup, h, ih]

theorem amLookup_amSet_ne {β : Type} (m : List (String × β)) (k k' : String) (v : β)
    (h : k ≠ k') : amLookup (amSet m k v) k' = amLookup m k' := by
  induction m with
  | nil => simp [amSet, amLookup, h]
  | cons p rest ih =>
    obtain ⟨k1, v1⟩ := p
    by_cases h1 : k1 = k
    · subst h1; simp [amSet, amLookup, h]
    · by_cases h2 : k1 = k'
      · subst h2; simp [amSet, amLookup, h1]
      · simp [amSet, amLookup, h1, h2, ih]

theorem amLookup_amErase_ne {β : Type} (m : List (String × β)) (k k' : String)
    (h : k ≠ k') : amLookup (amErase m k) k' = amLookup m k' := by
  induction m with
  | nil => simp [amErase, amLookup]
  | cons p rest ih =>
    obtain ⟨k1, v1⟩ := p
    by_cases h1 : k1 = k
    · subst h1; simp [amErase, amLookup, h]
    · by_cases h2 : k1 = k'
      · subst h2; simp [amErase, amLookup, h1]
      · simp [amErase, amLookup, h1, h2, ih]

theorem amLookup_mem {β : Type} (m : List (String × β)) (k : String) (v : β)
    (h : amLookup m k = some v) : (k, v) ∈ m := by
  induction m with
  | nil => simp [amLookup] at h
  | cons p rest ih =>
    obtain ⟨k1, v1⟩ := p
    by_cases h1 : k1 = k
    · subst h1
      simp [amLookup] at h
      simp [h]
    · simp [amLookup, h1] at h
      exact List.mem_cons_of_mem _ (ih h)

theorem mem_amSet {β : Type} (m : List (String × β)) (k : String) (v : β)
    (p : String × β) (h : p ∈ amSet m k v) : p = (k, v) ∨ p ∈ m := by
  induction m with
  | nil => simpa [amSet] using h
  | cons q rest ih =>
    obtain ⟨k1, v1⟩ := q
    by_cases h1 : k1 = k
    · subst h1
      simp [amSet] at h
      rcases h with h | h
      · exact Or.inl h
      · exact Or.inr (List.mem_cons_of_mem _ h)
    · simp [amSet, h1] at h
      rcases h with h | h
      · exact Or.inr (by simp [h])
      · rcases ih h with h2 | h2
        · exact Or.inl h2
        · exact Or.inr (List.mem_cons_of_mem _ h2)

theorem sumValues_amSet (m : List (String × ℚ)) (k : String) (v : ℚ) :
    sumValues (amSet m k v) = sumValues m + v - (amLookup m k).getD 0 := by
  induction m with
  | nil => simp [amSet, amLookup, sumValues]
  | cons p rest ih =>
    obtain ⟨k1, v1⟩ := p
    by_cases h : k1 = k
    · subst h
      simp [amSet, amLookup, sumValues]
      ring
    · simp only [amSet, amLookup, h, if_false, sumValues, List.map_cons, List.sum_cons] at *
      rw [ih]
      ring

theorem sumValues_amErase (m : List (String × ℚ)) (k : String) :
    sumValues (amErase m k) = sumValues m - (amLookup m k).getD 0 := by
  induction m with
  | nil => simp [amErase, amLookup, sumValues]
  | cons p rest ih =>
    obtain ⟨k1, v1⟩ := p
    by_cases h : k1 = k
    · subst h
      simp [amErase, amLookup, sumValues]
    · simp only [amErase, amLookup, h, if_false, sumValues, List.map_cons, List.sum_cons] at *
      rw [ih]
      ring

theorem length_amSet {β : Type} (m : List (String × β)) (k : String) (v : β) :
    (amSet m k v).length
      = if (amLookup m k).isSome then m.length else m.length + 1 := by
  induction m with
  | nil => simp [amSet, amLookup]
  | cons p rest ih =>
    obtain ⟨k1, v1⟩ := p
    by_cases h : k1 = k
    · subst h; simp [amSet, amLookup]
    · simp only [amSet, amLookup, h, if_false, List.length_cons, ih]
      by_cases h2 : (amLookup rest k).isSome <;> simp [h2]

theorem length_amErase {β : Type} (m : List (String × β)) (k : String)
    (h : (amLookup m k).isSome) : m.length = (amErase m k).length + 1 := by
  induction m with
  | nil => simp [amLookup] at h
  | cons p rest ih =>
    obtain ⟨k1, v1⟩ := p
    by_cases h1 : k1 = k
    · subst h1; simp [amErase]
    · simp only [amLookup, h1, if_false] at h
      simp [amErase, h1, ih h]

theorem sum_amSet_q (g : CollMetaJs → ℚ) (l : List (String × CollMetaJs)) (k : String)
    (c : CollMetaJs) :
    ((amSet l k c).map fun p => g p.2).sum
      = (l.map fun p => g p.2).sum + g c - ((amLookup l k).elim 0 fun x => g x) := by
  induction l with
  | nil => simp [amSet, amLookup]
  | cons p rest ih =>
    obtain ⟨k1, c1⟩ := p
    by_cases h : k1 = k
    · subst h
      simp [amSet, amLookup]
      ring
    · simp only [amSet, amLookup, h, if_false, List.map_cons, List.sum_cons]
      rw [ih]
      ring

theorem sum_amSet_z (g : CollMetaJs → Int) (l : List (String × CollMetaJs)) (k : String)
    (c : CollMetaJs) :
    ((amSet l k c).map fun p => g p.2).sum
      = (l.map fun p => g p.2).sum + g c - ((amLookup l k).elim 0 fun x => g x) := by
  induction l with
  | nil => simp [amSet, amLookup]
  | cons p rest ih =>
    obtain ⟨k1, c1⟩ := p
    by_cases h : k1 = k
    · subst h
      simp [amSet, amLookup]
      ring
    · simp only [amSet, amLookup, h, if_false, List.map_cons, List.sum_cons]
      rw [ih]
      ring

/-! Preservation of the metadata invariant on the id domain free of inherited
names, and its violation outside that domain. -/

theorem readSizeOrZero_not_proto (m : List (String × ℚ)) (k : String)
    (h : k ∉ objectProtoKeys) :
    readSizeOrZero m k = .num ((amLookup m k).getD 0) := by
  unfold readSizeOrZero
  cases hl : amLookup m k with
  | some v => rfl
  | none => simp [h]

theorem jsSetProp_not_proto {β : Type} (m : List (String × β)) (k : String) (v : β)
    (h : k ∉ objectProtoKeys) : jsSetProp m k v = amSet m k v := by
  unfold jsSetProp
  have h2 : k ≠ "__proto__" := by
    intro he
    apply h
    rw [he]
    decide
  simp [h2]

theorem emptyCollMetaJs_Inv (n : String) (now : Nat) : (emptyCollMetaJs n now).Inv := by
  constructor <;> simp [emptyCollMetaJs, sumValues, CollMetaJs.Inv]

theorem CollMetaJs.Inv_updateDocument (c : CollMetaJs) (now : Nat) (docId : String)
    (docSizeKB : ℚ) (isPermanent : Bool) (attachmentCount : Nat)
    (hid : docId ∉ objectProtoKeys) (h : c.Inv) :
    (c.updateDocument now docId docSizeKB isPermanent attachmentCount).1.Inv := by
  obtain ⟨hs, hl⟩ := h
  constructor
  · show JsNumber.add c.sizeKB
        (JsNumber.sub (.num docSizeKB) (readSizeOrZero c.documentSizes docId))
      = .num (sumValues (jsSetProp c.documentSizes docId docSizeKB))
    rw [readSizeOrZero_not_proto _ _ hid, jsSetProp_not_proto _ _ _ hid, hs,
      sumValues_amSet]
    show JsNumber.num (sumValues c.documentSizes
        + (docSizeKB - (amLookup c.documentSizes docId).getD 0))
      = JsNumber.num (sumValues c.documentSizes + docSizeKB
          - (amLookup c.documentSizes docId).getD 0)
    congr 1
    ring
  · show c.length + (if (amLookup c.documentSizes docId).isNone then 1 else 0)
      = ((jsSetProp c.documentSizes docId docSizeKB).length : Int)
    rw [jsSetProp_not_proto _ _ _ hid, length_amSet]
    cases hlk : amLookup c.documentSizes docId with
    | none => simp [hl, hlk]
    | some s => simp [hl, hlk]

theorem CollMetaJs.Inv_deleteDocument (c : CollMetaJs) (now : Nat) (docId : String)
    (h : c.Inv) : (c.deleteDocument now docId).1.Inv := by
  obtain ⟨hs, hl⟩ := h
  unfold CollMetaJs.deleteDocument
  cases hlk : amLookup c.documentSizes docId with
  | none => exact ⟨hs, hl⟩
  | some s =>
    constructor
    · show JsNumber.add c.sizeKB (.num (-s))
        = .num (sumValues (amErase c.documentSizes docId))
      rw [hs, sumValues_amErase, hlk, Option.getD_some]
      show JsNumber.num (sumValues c.documentSizes + -s)
        = JsNumber.num (sumValues c.documentSizes - s)
      congr 1
      ring
    · show c.length + (-1) = ((amErase c.documentSizes docId).length : Int)
      have h2 := length_amErase c.documentSizes docId (by simp [hlk])
      rw [hl, h2]
      push_cast
      ring

theorem DbInvJs_setColl (db : DbMetaJs) (n : String) (c cNew : CollMetaJs) (now : Nat)
    (dszq : ℚ) (dlen : Int) (h : db.Inv) (hc : amLookup db.collections n = some c)
    (hcNew : cNew.Inv)
    (hsum : sumValues cNew.documentSizes = sumValues c.documentSizes + dszq)
    (hlen : cNew.length = c.length + dlen) :
    (DbMetaJs.adjustTotals { db with collections := amSet db.collections n cNew }
      now (.num dszq) dlen).Inv := by
  obtain ⟨hmem, hts, htl⟩ := h
  refine ⟨?_, ?_, ?_⟩
  · intro p hp
    rcases mem_amSet db.collections n cNew p hp with h1 | h1
    · rw [h1]; exact hcNew
    · exact hmem p h1
  · show JsNumber.add db.totalSizeKB (.num dszq)
      = .num (((amSet db.collections n cNew).map fun p => sumValues p.2.documentSizes).sum)
    rw [hts, sum_amSet_q (fun x => sumValues x.documentSizes), hc, hsum]
    show JsNumber.num ((db.collections.map fun p => sumValues p.2.documentSizes).sum + dszq)
      = JsNumber.num ((db.collections.map fun p => sumValues p.2.documentSizes).sum
          + (sumValues c.documentSizes + dszq) - sumValues c.documentSizes)
    congr 1
    ring
  · show db.totalLength + dlen
      = ((amSet db.collections n cNew).map fun p => p.2.length).sum
    rw [sum_amSet_z (fun x => x.length), hc, htl, hlen]
    show (db.collections.map fun p => p.2.length).sum + dlen
      = (db.collections.map fun p => p.2.length).sum + (c.length + dlen) - c.length
    ring

theorem DbInvJs_getCollectionMetadata (db : DbMetaJs) (now : Nat) (n : String)
    (h : db.Inv) :
    (db.getCollectionMetadata now n).1.Inv
    ∧ amLookup (db.getCollectionMetadata now n).1.collections n
        = some (db.getCollectionMetadata now n).2 := by
  unfold DbMetaJs.getCollectionMetadata
  cases hl : amLookup db.collections n with
  | some c => exact ⟨h, hl⟩
  | none =>
    obtain ⟨hmem, hts, htl⟩ := h
    refine ⟨⟨?_, ?_, ?_⟩, ?_⟩
    · intro p hp
      rcases mem_amSet db.collections n (emptyCollMetaJs n now) p hp with h1 | h1
      · rw [h1]; exact emptyCollMetaJs_Inv n now
      · exact hmem p h1
    · show db.totalSizeKB = .num (((amSet db.collections n (emptyCollMetaJs n now)).map
          fun p => sumValues p.2.documentSizes).sum)
      rw [sum_amSet_q (fun x => sumValues x.documentSizes), hl, hts]
      simp [emptyCollMetaJs, sumValues]
    · show db.totalLength = ((amSet db.collections n (emptyCollMetaJs n now)).map
          fun p => p.2.length).sum
      rw [sum_amSet_z (fun x => x.length), hl, htl]
      simp [emptyCollMetaJs]
    · exact amLookup_amSet_self db.collections n (emptyCollMetaJs n now)

theorem DbInvJs_updateDocument (db : DbMetaJs) (now : Nat) (coll docId : String)
    (sz : ℚ) (perm : Bool) (att : Nat) (hid : docId ∉ objectProtoKeys)
    (h : db.Inv) : (db.updateDocument now coll docId sz perm att).Inv := by
  have hg := DbInvJs_getCollectionMetadata db now coll h
  have hcInv : (db.getCollectionMetadata now coll).2.Inv :=
    hg.1.1 _ (amLookup_mem _ _ _ hg.2)
  have hu := CollMetaJs.Inv_updateDocument (db.getCollectionMetadata now coll).2
    now docId sz perm att hid hcInv
  have hdelta : ((db.getCollectionMetadata now coll).2.updateDocument
        now docId sz perm att).2.1
      = .num (sz - (amLookup (db.getCollectionMetadata now coll).2.documentSizes
          docId).getD 0) := by
    show JsNumber.sub (.num sz)
        (readSizeOrZero (db.getCollectionMetadata now coll).2.documentSizes docId) = _
    rw [readSizeOrZero_not_proto _ _ hid]
    rfl
  have hsum : sumValues ((db.getCollectionMetadata now coll).2.updateDocument
        now docId sz perm att).1.documentSizes
      = sumValues (db.getCollectionMetadata now coll).2.documentSizes
        + (sz - (amLookup (db.getCollectionMetadata now coll).2.documentSizes
            docId).getD 0) := by
    show sumValues (jsSetProp (db.getCollectionMetadata now coll).2.documentSizes
        docId sz) = _
    rw [jsSetProp_not_proto _ _ _ hid, sumValues_amSet]
    ring
  rw [show db.updateDocument now coll docId sz perm att
      = DbMetaJs.adjustTotals { (db.getCollectionMetadata now coll).1 with
          collections := amSet (db.getCollectionMetadata now coll).1.collections coll
            ((db.getCollectionMetadata now coll).2.updateDocument now docId sz perm att).1 }
        now ((db.getCollectionMetadata now coll).2.updateDocument now docId sz perm att).2.1
        ((db.getCollectionMetadata now coll).2.updateDocument now docId sz perm att).2.2
      from rfl, hdelta]
  exact DbInvJs_setColl (db.getCollectionMetadata now coll).1 coll
    (db.getCollectionMetadata now coll).2
    ((db.getCollectionMetadata now coll).2.updateDocument now docId sz perm att).1
    now _ _ hg.1 hg.2 hu hsum rfl

theorem DbInvJs_deleteDocument (db : DbMetaJs) (now : Nat) (coll docId : String)
    (h : db.Inv) : (db.deleteDocument now coll docId).Inv := by
  have hg := DbInvJs_getCollectionMetadata db now coll h
  have hcInv : (db.getCollectionMetadata now coll).2.Inv :=
    hg.1.1 _ (amLookup_mem _ _ _ hg.2)
  have hd := CollMetaJs.Inv_deleteDocument (db.getCollectionMetadata now coll).2
    now docId hcInv
  rw [show db.deleteDocument now coll docId
      = (if ((db.getCollectionMetadata now coll).2.deleteDocument now docId).2.2.2 = true
        then
          DbMetaJs.adjustTotals { (db.getCollectionMetadata now coll).1 with
              collections := amSet (db.getCollectionMetadata now coll).1.collections coll
                ((db.getCollectionMetadata now coll).2.deleteDocument now docId).1 }
            now ((db.getCollectionMetadata now coll).2.deleteDocument now docId).2.1
            ((db.getCollectionMetadata now coll).2.deleteDocument now docId).2.2.1
        else (db.getCollectionMetadata now coll).1) from rfl]
  cases hlk : amLookup (db.getCollectionMetadata now coll).2.documentSizes docId with
  | none =>
    have hflag : ((db.getCollectionMetadata now coll).2.deleteDocument now docId).2.2.2
        = false := by
      unfold CollMetaJs.deleteDocument
      rw [hlk]
    rw [hflag]
    simpa using hg.1
  | some s =>
    have hflag : ((db.getCollectionMetadata now coll).2.deleteDocument now docId).2.2.2
        = true := by
      unfold CollMetaJs.deleteDocument
      rw [hlk]
    have hdelta : ((db.getCollectionMetadata now coll).2.deleteDocument now docId).2.1
        = .num (-s) := by
      unfold CollMetaJs.deleteDocument
      rw [hlk]
    have hdlen : ((db.getCollectionMetadata now coll).2.deleteDocument now docId).2.2.1
        = -1 := by
      unfold CollMetaJs.deleteDocument
      rw [hlk]
    have hsum : sumValues ((db.getCollectionMetadata now coll).2.deleteDocument
          now docId).1.documentSizes
        = sumValues (db.getCollectionMetadata now coll).2.documentSizes + (-s) := by
      unfold CollMetaJs.deleteDocument
      rw [hlk]
      show sumValues (amErase (db.getCollectionMetadata now coll).2.documentSizes docId)
        = _
      rw [sumValues_amErase, hlk, Option.getD_some]
      ring
    have hlen : ((db.getCollectionMetadata now coll).2.deleteDocument now docId).1.length
        = (db.getCollectionMetadata now coll).2.length + (-1) := by
      unfold CollMetaJs.deleteDocument
      rw [hlk]
    rw [hflag, if_pos rfl, hdelta, hdlen]
    exact DbInvJs_setColl (db.getCollectionMetadata now coll).1 coll
      (db.getCollectionMetadata now coll).2
      ((db.getCollectionMetadata now coll).2.deleteDocument now docId).1
      now (-s) (-1) hg.1 hg.2 hd hsum hlen

theorem DbInvJs_updateDocuments (db : DbMetaJs) (now : Nat) (coll : String)
    (us : List (String × ℚ × Bool)) (hids : ∀ u ∈ us, u.1 ∉ objectProtoKeys)
    (h : db.Inv) : (db.updateDocuments now coll us).Inv := by
  have hgen2 : ∀ (l : List (String × ℚ × Bool)), (∀ u ∈ l, u.1 ∉ objectProtoKeys) →
      ∀ (d : DbMetaJs), d.Inv → (d.updateDocuments now coll l).Inv := by
    intro l
    induction l with
    | nil => intro _ d hd; exact hd
    | cons u rest ih =>
      intro hl d hd
      show ((d.updateDocument now coll u.1 u.2.1 u.2.2 0).updateDocuments
        now coll rest).Inv
      exact ih (fun v hv => hl v (List.mem_cons_of_mem _ hv)) _
        (DbInvJs_updateDocument d now coll u.1 u.2.1 u.2.2 0
          (hl u (List.mem_cons_self _ _)) hd)
  exact hgen2 us hids db h

theorem DbInvJs_deleteDocuments (db : DbMetaJs) (now : Nat) (coll : String)
    (is2 : List String) (h : db.Inv) : (db.deleteDocuments now coll is2).Inv := by
  have hgen2 : ∀ (l : List String) (d : DbMetaJs), d.Inv →
      (d.deleteDocuments now coll l).Inv := by
    intro l
    induction l with
    | nil => intro d hd; exact hd
    | cons i rest ih =>
      intro d hd
      show ((d.deleteDocument now coll i).deleteDocuments now coll rest).Inv
      exact ih _ (DbInvJs_deleteDocument d now coll i hd)
  exact hgen2 is2 db h

theorem DbInvJs_applyMetaOp (db : DbMetaJs) (op : Nat × MetaOp)
    (hids : ∀ i ∈ (Prod.snd op).docIds, i ∉ objectProtoKeys) (h : db.Inv) :
    (applyMetaOpJs db op).Inv := by
  obtain ⟨now, op⟩ := op
  cases op with
  | upd c i s p a =>
    exact DbInvJs_updateDocument db now c i s p a
      (hids i (by simp [MetaOp.docIds])) h
  | del c i => exact DbInvJs_deleteDocument db now c i h
  | updBatch c us =>
    refine DbInvJs_updateDocuments db now c us ?_ h
    intro u hu
    exact hids u.1 (by simp only [MetaOp.docIds]; exact List.mem_map_of_mem Prod.fst hu)
  | delBatch c is2 => exact DbInvJs_deleteDocuments db now c is2 h

/-- C1 counterexample: a single `updateDocument` with the document id
`toString` on a fresh metadata tree.  Newness is decided on own keys, so the
size map gains an own entry of `5`, but the previous-size read
`documentSizes[docId] || 0` hits the inherited `Object.prototype.toString`,
the size delta is NaN, and the collection aggregate — and the database total
after `adjustTotals` — become NaN instead of the sum of the size map. -/
theorem metadata_invariant_counterexample :
    ((amLookup counterexampleDbJs.collections "c").map fun c => c.sizeKB)
      = some JsNumber.nan
    ∧ ((amLookup counterexampleDbJs.collections "c").map
        fun c => sumValues c.documentSizes) = some 5
    ∧ counterexampleDbJs.totalSizeKB = JsNumber.nan := by
  refine ⟨rfl, ?_, rfl⟩
  show some (sumValues [("toString", (5 : ℚ))]) = some 5
  norm_num [sumValues]

/-- C1 amended (proved): after any sequence of document mutations (single or
batch updates and deletions) whose document ids are not inherited
`Object.prototype` property names, every collection satisfies
`sizeKB = num (sum of its per-document size map)` and
`length = number of its keys`, and the database totals equal the sums over
all collections. -/
theorem metadata_totals_invariant_js (dbName : String) (t0 : Nat)
    (ops : List (Nat × MetaOp))
    (hids : ∀ op ∈ ops, ∀ i ∈ (Prod.snd op).docIds, i ∉ objectProtoKeys) :
    DbMetaJs.Inv (ops.foldl applyMetaOpJs (initDbMetaJs dbName t0)) := by
  have hinit : (initDbMetaJs dbName t0).Inv := by
    refine ⟨?_, ?_, ?_⟩ <;> simp [initDbMetaJs, DbMetaJs.Inv]
  have hgen : ∀ (l : List (Nat × MetaOp)),
      (∀ op ∈ l, ∀ i ∈ (Prod.snd op).docIds, i ∉ objectProtoKeys) →
      ∀ (db : DbMetaJs), db.Inv → (l.foldl applyMetaOpJs db).Inv := by
    intro l
    induction l with
    | nil => intro _ db h; exact h
    | cons op rest ih =>
      intro hl db h
      exact ih (fun o ho => hl o (List.mem_cons_of_mem _ ho)) _
        (DbInvJs_applyMetaOp db op (hl op (List.mem_cons_self _ _)) h)
  exact hgen ops hids _ hinit

/-- Witness for the amended C1 at a concrete mutation sequence with ordinary
ids: an update followed by a deletion. -/
theorem metadata_totals_invariant_js_witness :
    DbMetaJs.Inv ([((1 : Nat), MetaOp.upd "c" "a" 2 false 0),
                   ((2 : Nat), MetaOp.del "c" "a")].foldl applyMetaOpJs
      (initDbMetaJs "db" 0)) :=
  metadata_totals_invariant_js "db" 0
    [((1 : Nat), MetaOp.upd "c" "a" 2 false 0), ((2 : Nat), MetaOp.del "c" "a")]
    (by decide)

/-- C5 counterexample: a concrete collection state holding the encrypted
document `"x"` (present in metadata, record stored with the encrypted flag and
packed bytes); reading it without a key yields the absent result `false` — the
very outcome the claim says does not happen — rather than a locked record. -/
theorem getDocument_locked_claim_counterexample :
    getDocument testCodec lockedCollState "x" none = GetResult.notFound := rfl

/-- C5 amended (proved): for every id present in the metadata whose stored
record is encrypted, `getDocument` without a key returns `false`, the same
absent result as for a missing document; no locked record is produced. -/
theorem getDocument_encrypted_without_key_absent {α : Type} (C : CodecPrims α)
    (st : CollState) (docId : String) (r : DbRecord)
    (hmeta : (amLookup st.meta.documentSizes docId).isSome = true)
    (hstore : amLookup st.store docId = some r) (henc : r.encrypted = true) :
    getDocument C st docId none = GetResult.notFound := by
  have hne : (amLookup st.meta.documentSizes docId).isNone = false := by
    cases hl : amLookup st.meta.documentSizes docId with
    | none => rw [hl] at hmeta; simp at hmeta
    | some s => simp
  have hrec : isEncryptedRecord r = true := by
    simp [isEncryptedRecord, isEncryptedView, truthyBytes, henc]
  simp [getDocument, hne, hstore, hrec]

/-- Witness for the amended C5 at the concrete locked state. -/
theorem getDocument_encrypted_without_key_absent_witness :
    (amLookup lockedCollState.meta.documentSizes "x").isSome = true
    ∧ encryptedRecord.encrypted = true
    ∧ getDocument testCodec lockedCollState "x" none = GetResult.notFound :=
  ⟨rfl, rfl,
    getDocument_encrypted_without_key_absent testCodec lockedCollState "x"
      encryptedRecord rfl rfl rfl⟩

theorem addDocument_flag {α : Type} (C : CodecPrims α) (salt iv : List Nat)
    (st : CollState) (input : DocInput α) (key : Option String) (now : Nat) :
    (addDocument C salt iv st input key now).1
      = (!(jsIn st.meta.documentSizes input.id)
          && (amLookup st.store input.id).isNone) := by
  cases hj : jsIn st.meta.documentSizes input.id with
  | true =>
    cases hs : amLookup st.store input.id with
    | some r => simp [addDocument, hj, hs]
    | none => simp [addDocument, hj, hs]
  | false =>
    cases hs : amLookup st.store input.id with
    | some r => simp [addDocument, hj, hs]
    | none => simp [addDocument, hj, hs]

theorem addDocument_store_eq {α : Type} (C : CodecPrims α) (salt iv : List Nat)
    (st : CollState) (input : DocInput α) (key : Option String) (now : Nat) :
    (addDocument C salt iv st input key now).2.store
      = amSet st.store input.id (writtenRecord C salt iv input key now) := by
  cases hj : jsIn st.meta.documentSizes input.id with
  | true =>
    cases hs : amLookup st.store input.id with
    | some r => simp [addDocument, writtenRecord, hj, hs]
    | none => simp [addDocument, writtenRecord, hj, hs]
  | false =>
    cases hs : amLookup st.store input.id with
    | some r => simp [addDocument, writtenRecord, hj, hs]
    | none => simp [addDocument, writtenRecord, hj, hs]

theorem addDocument_sizes_eq {α : Type} (C : CodecPrims α) (salt iv : List Nat)
    (st : CollState) (input : DocInput α) (key : Option String) (now : Nat) :
    (addDocument C salt iv st input key now).2.meta.documentSizes
      = amSet st.meta.documentSizes input.id
          (((writtenRecord C salt iv input key now).packedData.length : ℚ) / 1024) := by
  cases hj : jsIn st.meta.documentSizes input.id with
  | true =>
    cases hs : amLookup st.store input.id with
    | some r => simp [addDocument, CollMeta.updateDocument, writtenRecord, hj, hs]
    | none => simp [addDocument, CollMeta.updateDocument, writtenRecord, hj, hs]
  | false =>
    cases hs : amLookup st.store input.id with
    | some r => simp [addDocument, CollMeta.updateDocument, writtenRecord, hj, hs]
    | none => simp [addDocument, CollMeta.updateDocument, writtenRecord, hj, hs]

/-- C8 counterexample: the very first add of the id `toString` to an empty
collection.  The id is absent from the metadata size map (its own keys are
empty), yet `addDocument` reports `is_new = false`, because the source tests
membership with the `in` operator and `"toString" in {}` is true through the
prototype chain, so the update path is taken. -/
theorem addDocument_isNew_claim_counterexample :
    amLookup (initCollState "c" 0).meta.documentSizes "toString" = none
    ∧ (addDocument testCodec testSalt testIv (initCollState "c" 0)
        { id := "toString", created := none, permanent := false, encrypted := false,
          compressed := false, data := [1] } none 1).1 = false :=
  ⟨rfl, rfl⟩

/-- C8 amended (proved): `addDocument` reports `is_new = true` exactly when
the `in`-membership test on the metadata size map is false — the id is
neither an own key nor a name inherited from `Object.prototype` — and the
record store holds no conflicting record.  When metadata predicts a new
document but the insert-only write conflicts, it falls back to an upsert,
stores the new record and reports `false` without raising.  For an inherited
name such as `toString`, even the first add reports `false`.  Adding an
ordinary id twice from an empty collection yields `true` then `false`, with a
subsequent get returning the latest value. -/
theorem addDocument_isNew_spec {α : Type} (C : CodecPrims α) (salt iv : List Nat) :
    (∀ (st : CollState) (input : DocInput α) (key : Option String) (now : Nat),
        (addDocument C salt iv st input key now).1
          = (!(jsIn st.meta.documentSizes input.id)
              && (amLookup st.store input.id).isNone))
    ∧ (∀ (st : CollState) (input : DocInput α) (key : Option String) (now : Nat),
        jsIn st.meta.documentSizes input.id = false →
        (amLookup st.store input.id).isSome = true →
        (addDocument C salt iv st input key now).1 = false
          ∧ amLookup (addDocument C salt iv st input key now).2.store input.id
              = some (writtenRecord C salt iv input key now))
    ∧ (∀ (st : CollState) (input : DocInput α) (key : Option String) (now : Nat),
        input.id ∈ objectProtoKeys →
        (addDocument C salt iv st input key now).1 = false)
    ∧ (∀ (x : String) (v1 v2 : α) (t0 t1 t2 : Nat),
        x ∉ objectProtoKeys →
        (∀ b, C.junpack (C.jpack b) = b) →
        (C.jpack v2).length ≠ 0 →
        (addDocument C salt iv (initCollState "c" t0)
            { id := x, created := none, permanent := false, encrypted := false,
              compressed := false, data := v1 } none t1).1 = true
        ∧ (addDocument C salt iv
            (addDocument C salt iv (initCollState "c" t0)
              { id := x, created := none, permanent := false, encrypted := false,
                compressed := false, data := v1 } none t1).2
            { id := x, created := none, permanent := false, encrypted := false,
              compressed := false, data := v2 } none t2).1 = false
        ∧ getDocument C
            (addDocument C salt iv
              (addDocument C salt iv (initCollState "c" t0)
                { id := x, created := none, permanent := false, encrypted := false,
                  compressed := false, data := v1 } none t1).2
              { id := x, created := none, permanent := false, encrypted := false,
                compressed := false, data := v2 } none t2).2
            x none
          = GetResult.found
              { created := t2, modified := t2, permanent := false, compressed := false,
                encrypted := false, packedData := C.jpack v2 }
              (.ok (some v2))) := by
  refine ⟨fun st input key now => addDocument_flag C salt iv st input key now,
    ?_, ?_, ?_⟩
  · intro st input key now hm hs
    constructor
    · rw [addDocument_flag]
      cases hl : amLookup st.store input.id with
      | none => rw [hl] at hs; simp at hs
      | some r => simp [hm, hl]
    · rw [addDocument_store_eq]
      exact amLookup_amSet_self st.store input.id _
  · intro st input key now hp
    rw [addDocument_flag]
    have hj : jsIn st.meta.documentSizes input.id = true := by
      simp [jsIn, hp]
    rw [hj]
    rfl
  · intro x v1 v2 t0 t1 t2 hx hser hne
    refine ⟨?_, ?_, ?_⟩
    · rw [addDocument_flag]
      have hj : jsIn (initCollState "c" t0).meta.documentSizes x = false := by
        simp [jsIn, initCollState, emptyCollMeta, amLookup, hx]
      rw [hj]
      rfl
    · rw [addDocument_flag, addDocument_sizes_eq]
      have hj : jsIn (amSet (initCollState "c" t0).meta.documentSizes x
          (((writtenRecord C salt iv
              { id := x, created := none, permanent := false, encrypted := false,
                compressed := false, data := v1 } none t1).packedData.length : ℚ)
            / 1024)) x = true := by
        simp [jsIn, amLookup_amSet_self]
      rw [hj]
      rfl
    · simp only [getDocument, addDocument_sizes_eq, addDocument_store_eq,
        amLookup_amSet_self, Option.isNone_some, Bool.false_eq_true, if_false]
      have hrec : writtenRecord C salt iv
          { id := x, created := none, permanent := false, encrypted := false,
            compressed := false, data := v2 } none t2
          = { created := t2, modified := t2, permanent := false, compressed := false,
              encrypted := false, packedData := C.jpack v2 } := rfl
      rw [hrec]
      have hencr : isEncryptedRecord
          { created := t2, modified := t2, permanent := false, compressed := false,
            encrypted := false, packedData := C.jpack v2 } = false := rfl
      rw [hencr]
      have hout : objectOutputData C
          { created := t2, modified := t2, permanent := false, compressed := false,
            encrypted := false, packedData := C.jpack v2 } ""
          = .ok (some v2) := by
        simp [objectOutputData, hne, unpackBytes, hser]
      simp [hout]

/-- Witness for the amended C8: the double-add scenario at concrete inputs
with the concrete codec. -/
theorem addDocument_isNew_spec_witness :
    (addDocument testCodec testSalt testIv (initCollState "c" 0)
        { id := "x", created := none, permanent := false, encrypted := false,
          compressed := false, data := [1] } none 1).1 = true
    ∧ (addDocument testCodec testSalt testIv
        (addDocument testCodec testSalt testIv (initCollState "c" 0)
          { id := "x", created := none, permanent := false, encrypted := false,
            compressed := false, data := [1] } none 1).2
        { id := "x", created := none, permanent := false, encrypted := false,
          compressed := false, data := [2] } none 2).1 = false := by
  have h := (addDocument_isNew_spec testCodec testSalt testIv).2.2.2 "x" [1] [2] 0 1 2
    (by decide) (fun _ => rfl) (by decide)
  exact ⟨h.1, h.2.1⟩

/-! The eviction triggers (claim C7). -/

theorem jsAdd_undef_right (v : JsVal) : jsAdd v .jsUndefined = .nan := by
  cases v <;> rfl

theorem jsGt_nan_right (v : JsVal) : jsGt v .nan = false := by
  cases v <;> rfl

theorem jsGe_undef_right (v : JsVal) : jsGe v .jsUndefined = false := by
  cases v <;> rfl

theorem trigger_getters_false (c : TriggerState) :
    shouldRunFreeSpaceSize c = false ∧ shouldRunFreeSpaceTime c = false := by
  constructor
  · show jsGt c.totalSizeKB (jsAdd (c.settings.dataProp "sizeLimitKB") .jsUndefined) = false
    rw [jsAdd_undef_right]
    exact jsGt_nan_right _
  · show (isFreeSpaceEnabled c
        && jsGe (.num ((c.now : ℚ) - (c.lastFreeSpaceTime : ℚ))) .jsUndefined) = false
    rw [jsGe_undef_right]
    exact Bool.and_false _

/-- C7 (code_bug): the post-add eviction check can never fire.  The getter
`shouldRunFreeSpaceSize` reads `this.settings.bufferLimitKB`, which is not a
property of the `Settings` instance (the configured value lives in its data
map), so the comparison is `totalSizeKB > sizeLimitKB + undefined`, i.e. a
comparison against `NaN`, which is false for every state; the timer getter
reads `this.settings.freeSpaceEvery` the same way and is also constantly
false.  Had the source read the buffer limit from the settings data (as
`Settings.init` stores it), the trigger would fire on the concrete over-limit
state, on which the actual getter still yields false — so an `add` can return
with the collection far above its soft threshold and no eviction run. -/
theorem freeSpace_trigger_never_fires :
    (∀ c : TriggerState,
        shouldRunFreeSpaceSize c = false ∧ shouldRunFreeSpaceTime c = false)
    ∧ intendedFreeSpaceSizeTrigger overLimitTriggerState = true
    ∧ shouldRunFreeSpaceSize overLimitTriggerState = false := by
  refine ⟨trigger_getters_false, ?_, (trigger_getters_false overLimitTriggerState).1⟩
  have h1 : overLimitTriggerState.settings.dataProp "sizeLimitKB" = JsVal.num 10 := rfl
  have h2 : overLimitTriggerState.settings.dataProp "bufferLimitKB" = JsVal.num (-2) := rfl
  show jsGt overLimitTriggerState.totalSizeKB
      (jsAdd (overLimitTriggerState.settings.dataProp "sizeLimitKB")
        (overLimitTriggerState.settings.dataProp "bufferLimitKB")) = true
  rw [h1, h2]
  show jsGt (JsVal.num 100) (jsAdd (JsVal.num 10) (JsVal.num (-2))) = true
  simp only [jsAdd, jsGt, decide_eq_true_eq]
  norm_num

/-! The `isEncrypted` predicate (claim C9). -/

/-- C9 counterexample: a Document freshly constructed with an encryption key
and an unpacked value has `_packedData = new Uint8Array(0)` — an object and
therefore truthy — so `Document.isEncrypted` reports it as encrypted, where
the claim expects `false`. -/
theorem isEncrypted_fresh_doc_counterexample :
    isEncryptedView (mkDocumentView false none (some "pw")) = true := rfl

/-- C9 amended (proved): `isEncrypted` is true iff the encrypted flag is set
and the `packedData` property is present — presence of the property, not
non-emptiness of the bytes.  Consequently every Document constructed with an
encryption key (whose `_packedData` is at least the empty buffer) is reported
encrypted, even before its value is packed. -/
theorem isEncrypted_presence_spec :
    (∀ d : DocView, isEncryptedView d = (d.encrypted && d.packedData.isSome))
    ∧ (∀ (e : Bool) (pd : Option (List Nat)) (k : String),
        isEncryptedView (mkDocumentView e pd (some k)) = true) := by
  constructor
  · intro d
    cases hp : d.packedData <;> simp [isEncryptedView, truthyBytes, hp]
  · intro e pd k
    cases pd <;> simp [isEncryptedView, mkDocumentView, truthyBytes]

/-! deleteDatabase (claim C10). -/

theorem metadataKey_ne_settingsKey (n : String) :
    metadataKeyOf n ≠ settingsKeyOf n := by
  intro h
  have h2 := congrArg String.data h
  simp only [metadataKeyOf, settingsKeyOf, String.data_append] at h2
  have h3 := List.append_cancel_left h2
  exact absurd h3 (by decide)

/-- C10 (confirmed): `deleteDatabase` never completes normally — after closing
the handle, deleting the backing database, nulling the metadata and clearing
the settings, it reads `metadataKey` from the nulled metadata and throws a
TypeError — and the persisted metadata entry in the synchronous store is left
exactly as it was. -/
theorem deleteDatabase_always_throws (st : DatabaseState) :
    (deleteDatabase st).2 = some .typeError
    ∧ amLookup (deleteDatabase st).1.localStore (metadataKeyOf st.dbName)
        = amLookup st.localStore (metadataKeyOf st.dbName) := by
  constructor
  · rfl
  · show amLookup (amSet st.localStore (settingsKeyOf st.dbName) (.settingsVal []))
        (metadataKeyOf st.dbName) = amLookup st.localStore (metadataKeyOf st.dbName)
    exact amLookup_amSet_ne st.localStore (settingsKeyOf st.dbName)
      (metadataKeyOf st.dbName) (.settingsVal [])
      (metadataKey_ne_settingsKey st.dbName).symm

/-! The eviction path (claim C6). -/

theorem deleteDocument_force_sizeKB (st : CollState) (docId : String) (now : Nat) :
    (deleteDocument st docId true now).2.meta.sizeKB
      = st.meta.sizeKB - (amLookup st.meta.documentSizes docId).getD 0 := by
  unfold deleteDocument
  simp only [Bool.not_true, Bool.and_false, Bool.false_eq_true, if_false]
  cases hl : amLookup st.meta.documentSizes docId with
  | none => simp
  | some s =>
    simp only [Option.isNone_some, Bool.false_eq_true, if_false]
    show (st.meta.deleteDocument now docId).1.sizeKB = st.meta.sizeKB - (some s).getD 0
    unfold CollMeta.deleteDocument
    rw [hl]
    show st.meta.sizeKB + -s = st.meta.sizeKB - (some s).getD 0
    simp
    ring

theorem deleteDocument_untouched (st : CollState) (docId docId2 : String)
    (now : Nat) (h : docId ≠ docId2) :
    amLookup (deleteDocument st docId true now).2.meta.documentSizes docId2
      = amLookup st.meta.documentSizes docId2
    ∧ amLookup (deleteDocument st docId true now).2.store docId2
      = amLookup st.store docId2 := by
  unfold deleteDocument
  simp only [Bool.not_true, Bool.and_false, Bool.false_eq_true, if_false]
  cases hl : amLookup st.meta.documentSizes docId with
  | none => simp
  | some s =>
    simp only [Option.isNone_some, Bool.false_eq_true, if_false]
    constructor
    · show amLookup (st.meta.deleteDocument now docId).1.documentSizes docId2
        = amLookup st.meta.documentSizes docId2
      unfold CollMeta.deleteDocument
      rw [hl]
      exact amLookup_amErase_ne st.meta.documentSizes docId docId2 h
    · exact amLookup_amErase_ne st.store docId docId2 h

theorem evictLoop_sizeKB (size spaceToFree : ℚ) (now : Nat) :
    ∀ (entries : List (String × Nat)) (totalFreed : ℚ) (st : CollState),
      (evictLoop size spaceToFree now entries totalFreed st).2.meta.sizeKB
        = st.meta.sizeKB - (evictLoop size spaceToFree now entries totalFreed st).1
            + totalFreed := by
  intro entries
  induction entries with
  | nil =>
    intro tf st
    simp [evictLoop]
  | cons e rest ih =>
    intro tf st
    obtain ⟨docId, ts⟩ := e
    by_cases hg : st.meta.sizeKB > size
    · by_cases hb : tf + (amLookup st.meta.documentSizes docId).getD 0 ≥ spaceToFree
      · simp only [evictLoop, hg, if_true, hb, if_pos]
        rw [deleteDocument_force_sizeKB]
        ring
      · simp only [evictLoop, hg, if_true, hb, if_false]
        rw [ih]
        rw [deleteDocument_force_sizeKB]
        ring
    · simp only [evictLoop, hg, if_false]
      exact ih tf st

theorem mem_insertSorted (p q : String × Nat) : ∀ l : List (String × Nat),
    q ∈ insertSorted p l ↔ q = p ∨ q ∈ l := by
  intro l
  induction l with
  | nil => simp [insertSorted]
  | cons r rest ih =>
    by_cases h : p.2 < r.2
    · simp only [insertSorted, h, if_true, List.mem_cons]
    · simp only [insertSorted, h, if_false, List.mem_cons, ih]
      tauto

theorem mem_sortByModified (l : List (String × Nat)) (q : String × Nat) :
    q ∈ sortByModified l ↔ q ∈ l := by
  suffices h : ∀ (l2 acc : List (String × Nat)),
      (q ∈ List.foldl (fun a p => insertSorted p a) acc l2 ↔ q ∈ acc ∨ q ∈ l2) by
    have h2 := h l []
    simpa [sortByModified] using h2
  intro l2
  induction l2 with
  | nil => intro acc; simp
  | cons p rest ih =>
    intro acc
    simp only [List.foldl_cons, ih, mem_insertSorted, List.mem_cons]
    tauto

theorem perm_not_in_candidates (st : CollState) (docId : String)
    (h : (amLookup st.meta.documentPermanent docId).getD 0 ≠ 0) :
    ∀ p ∈ evictCandidates st, p.1 ≠ docId := by
  intro p hp he
  rw [evictCandidates, mem_sortByModified, List.mem_filter] at hp
  have h2 := hp.2
  rw [he] at h2
  simp at h2
  exact h h2

theorem evictLoop_untouched (size spaceToFree : ℚ) (now : Nat) :
    ∀ (entries : List (String × Nat)) (totalFreed : ℚ) (st : CollState)
      (docId : String), (∀ p ∈ entries, p.1 ≠ docId) →
      amLookup (evictLoop size spaceToFree now entries totalFreed st).2.meta.documentSizes
          docId
        = amLookup st.meta.documentSizes docId
      ∧ amLookup (evictLoop size spaceToFree now entries totalFreed st).2.store docId
        = amLookup st.store docId := by
  intro entries
  induction entries with
  | nil =>
    intro tf st docId _
    simp [evictLoop]
  | cons e rest ih =>
    intro tf st docId hne
    obtain ⟨d, ts⟩ := e
    have hd : d ≠ docId := hne (d, ts) (List.mem_cons_self _ _)
    have hrest : ∀ p ∈ rest, p.1 ≠ docId :=
      fun p hp => hne p (List.mem_cons_of_mem _ hp)
    have hdel := deleteDocument_untouched st d docId now hd
    by_cases hg : st.meta.sizeKB > size
    · by_cases hb : tf + (amLookup st.meta.documentSizes d).getD 0 ≥ spaceToFree
      · simp only [evictLoop, hg, if_true, hb, if_pos]
        exact hdel
      · simp only [evictLoop, hg, if_true, hb, if_false]
        have hr := ih (tf + (amLookup st.meta.documentSizes d).getD 0)
          (deleteDocument st d true now).2 docId hrest
        exact ⟨hr.1.trans hdel.1, hr.2.trans hdel.2⟩
    · simp only [evictLoop, hg, if_false]
      exact ih tf st docId hrest

theorem evict_run_spec (size spaceToFree : ℚ) (now : Nat) (st : CollState) :
    (evictLoop size spaceToFree now (evictCandidates st) 0 st).2.meta.sizeKB
      = st.meta.sizeKB - (evictLoop size spaceToFree now (evictCandidates st) 0 st).1
    ∧ ∀ docId, (amLookup st.meta.documentPermanent docId).getD 0 ≠ 0 →
        amLookup
            (evictLoop size spaceToFree now (evictCandidates st) 0 st).2.meta.documentSizes
            docId
          = amLookup st.meta.documentSizes docId
        ∧ amLookup (evictLoop size spaceToFree now (evictCandidates st) 0 st).2.store docId
          = amLookup st.store docId := by
  constructor
  · have h := evictLoop_sizeKB size spaceToFree now (evictCandidates st) 0 st
    rw [h]
    ring
  · intro docId hperm
    exact evictLoop_untouched size spaceToFree now (evictCandidates st) 0 st docId
      (perm_not_in_candidates st docId hperm)

/-- C6 (code_bug): the body of `freeSpace` begins with
`this.lastFreeSpaceTime = Date.now(); $` — a bare identifier `$` — so in any
standard environment (no global `$` binding) every call throws a
`ReferenceError` before examining anything, and the eviction the claim
describes never runs.  The remaining conjuncts check the algorithm in a
hypothetical environment that does bind `$`: a non-negative target at or above
current usage is a no-op returning `0`; and every run removes exactly the
returned number of KB from the collection aggregate and never touches a
document whose permanence flag is set. -/
theorem freeSpace_reference_error :
    (∀ (st : CollState) (size : ℚ) (now : Nat),
        freeSpace false st size now = .error .referenceError)
    ∧ (∀ (st : CollState) (size : ℚ) (now : Nat), size ≥ 0 → st.meta.sizeKB ≤ size →
        freeSpace true st size now = .ok (0, { st with lastFreeSpaceTime := now }))
    ∧ (∀ (st : CollState) (size : ℚ) (now : Nat) (freed : ℚ) (stF : CollState),
        freeSpace true st size now = .ok (freed, stF) →
        stF.meta.sizeKB = st.meta.sizeKB - freed
        ∧ ∀ docId, (amLookup st.meta.documentPermanent docId).getD 0 ≠ 0 →
            amLookup stF.meta.documentSizes docId = amLookup st.meta.documentSizes docId
            ∧ amLookup stF.store docId = amLookup st.store docId) := by
  refine ⟨?_, ?_, ?_⟩
  · intro st size now
    rfl
  · intro st size now h0 hle
    show (if size ≥ 0 ∧ ({ st with lastFreeSpaceTime := now } : CollState).meta.sizeKB ≤ size
        then (Except.ok (0, { st with lastFreeSpaceTime := now })
          : Except JsRuntimeError (ℚ × CollState))
        else if size ≥ 0 then
          Except.ok (evictLoop size
            (({ st with lastFreeSpaceTime := now } : CollState).meta.sizeKB - size) now
            (evictCandidates { st with lastFreeSpaceTime := now }) 0
            { st with lastFreeSpaceTime := now })
        else
          Except.ok (evictLoop
            (({ st with lastFreeSpaceTime := now } : CollState).meta.sizeKB - (-size))
            (-size) now (evictCandidates { st with lastFreeSpaceTime := now }) 0
            { st with lastFreeSpaceTime := now }))
      = Except.ok (0, { st with lastFreeSpaceTime := now })
    rw [if_pos ⟨h0, hle⟩]
  · intro st size now freed stF h
    have hmeta : ({ st with lastFreeSpaceTime := now } : CollState).meta = st.meta := rfl
    have hstore : ({ st with lastFreeSpaceTime := now } : CollState).store = st.store := rfl
    rw [show freeSpace true st size now
        = (if size ≥ 0 ∧ ({ st with lastFreeSpaceTime := now } : CollState).meta.sizeKB ≤ size
          then (Except.ok (0, { st with lastFreeSpaceTime := now })
            : Except JsRuntimeError (ℚ × CollState))
          else if size ≥ 0 then
            Except.ok (evictLoop size
              (({ st with lastFreeSpaceTime := now } : CollState).meta.sizeKB - size) now
              (evictCandidates { st with lastFreeSpaceTime := now }) 0
              { st with lastFreeSpaceTime := now })
          else
            Except.ok (evictLoop
              (({ st with lastFreeSpaceTime := now } : CollState).meta.sizeKB - (-size))
              (-size) now (evictCandidates { st with lastFreeSpaceTime := now }) 0
              { st with lastFreeSpaceTime := now })) from rfl] at h
    by_cases h1 : size ≥ 0
        ∧ ({ st with lastFreeSpaceTime := now } : CollState).meta.sizeKB ≤ size
    · rw [if_pos h1] at h
      have hp : ((0 : ℚ), ({ st with lastFreeSpaceTime := now } : CollState))
          = (freed, stF) := by
        injection h
      have hf : (0 : ℚ) = freed := congrArg Prod.fst hp
      have hs : ({ st with lastFreeSpaceTime := now } : CollState) = stF :=
        congrArg Prod.snd hp
      constructor
      · rw [← hs, ← hf, hmeta]
        ring
      · intro docId _
        rw [← hs, hmeta, hstore]
        exact ⟨rfl, rfl⟩
    · rw [if_neg h1] at h
      by_cases h2 : size ≥ 0
      · rw [if_pos h2] at h
        have hp : evictLoop size
            (({ st with lastFreeSpaceTime := now } : CollState).meta.sizeKB - size) now
            (evictCandidates { st with lastFreeSpaceTime := now }) 0
            { st with lastFreeSpaceTime := now } = (freed, stF) := by
          injection h
        have hspec := evict_run_spec size
          (({ st with lastFreeSpaceTime := now } : CollState).meta.sizeKB - size) now
          { st with lastFreeSpaceTime := now }
        rw [hp] at hspec
        constructor
        · have := hspec.1
          rw [hmeta] at this
          exact this
        · intro docId hperm
          have hperm2 : (amLookup
              ({ st with lastFreeSpaceTime := now } : CollState).meta.documentPermanent
              docId).getD 0 ≠ 0 := by rw [hmeta]; exact hperm
          have := hspec.2 docId hperm2
          rw [hmeta, hstore] at this
          exact this
      · rw [if_neg h2] at h
        have hp : evictLoop
            (({ st with lastFreeSpaceTime := now } : CollState).meta.sizeKB - (-size))
            (-size) now (evictCandidates { st with lastFreeSpaceTime := now }) 0
            { st with lastFreeSpaceTime := now } = (freed, stF) := by
          injection h
        have hspec := evict_run_spec
          (({ st with lastFreeSpaceTime := now } : CollState).meta.sizeKB - (-size))
          (-size) now { st with lastFreeSpaceTime := now }
        rw [hp] at hspec
        constructor
        · have := hspec.1
          rw [hmeta] at this
          exact this
        · intro docId hperm
          have hperm2 : (amLookup
              ({ st with lastFreeSpaceTime := now } : CollState).meta.documentPermanent
              docId).getD 0 ≠ 0 := by rw [hmeta]; exact hperm
          have := hspec.2 docId hperm2
          rw [hmeta, hstore] at this
          exact this

/-- Witness for C6: throwing on a concrete call, and the no-op clause at a
concrete state within its bound in the `$`-bound environment. -/
theorem freeSpace_reference_error_witness :
    freeSpace false (initCollState "c" 0) 5 7 = .error .referenceError
    ∧ freeSpace true (initCollState "c" 0) 5 7
        = .ok (0, { initCollState "c" 0 with lastFreeSpaceTime := 7 }) :=
  ⟨(freeSpace_reference_error).1 (initCollState "c" 0) 5 7,
    (freeSpace_reference_error).2.1 (initCollState "c" 0) 5 7 (by norm_num)
      (by norm_num [initCollState, emptyCollMeta])⟩

end LacertaDB
